import Mathlib

/-!
# JSON-Schema generator (`jsonschema.go`): shallow embedding and verified properties

The Go program walks a `reflect.Type` and fills a `property` tree.  Here the
type descriptor is an inductive tree (`GoType`), the schema nodes are the
inductives `property` / `item`, and every method with a pointer receiver
(`p.read(...)`, `p.readFromStruct(...)`, ...) is a function taking the
receiver's current state and returning its new state.

Modelling conventions
* Go `string` is `String`; `strings.Index(s, ",")` is the position of the first
  comma character (a comma is a single byte that never occurs inside a
  multi-byte UTF-8 sequence, so byte and character splitting agree).
* `map[string]*property` is an association list with unique keys
  (`mapSet` overwrites an existing key); a `nil` map is `none`.
* `[]string` for `Required` is a `List String`; the code never builds an empty
  non-nil slice, so `[]` stands for the unset (`nil`) slice.
* `reflect.StructTag.Get` belongs to the Go standard library; a tag is taken in
  its parsed form, the list of `key:"value"` pairs, and `Get` looks a key up.
* `reflect.Type` values are finite trees here, so cyclic Go types are outside
  the model.
* A `reflect.Value` is the inductive `GoValue`; it carries its own type data
  (`v.Type()`, `v.Type().String()`), and nothing forces a field's value to
  have the field's declared type, so the concrete inputs below are written
  well-typed by hand.
* A panic of the Go program (`Elem()`, `NumField()` or `Type()` on a value of
  the wrong kind) is the result `none`; a method that can panic returns an
  `Option`.
-/

namespace jsonschema

/-! ## Type descriptors (`reflect.Kind`, `reflect.Type`, `reflect.StructField`) -/

/-- All values of `reflect.Kind`. -/
inductive Kind
  | Invalid | Bool
  | Int | Int8 | Int16 | Int32 | Int64
  | Uint | Uint8 | Uint16 | Uint32 | Uint64 | Uintptr
  | Float32 | Float64 | Complex64 | Complex128
  | Array | Chan | Func | Interface | Map | Ptr | Slice | String | Struct
  | UnsafePointer
  deriving DecidableEq, Repr

/-- Kinds of the types that carry neither an element type nor fields that the
generator looks at. -/
inductive BasicKind
  | Bool
  | Int | Int8 | Int16 | Int32 | Int64
  | Uint | Uint8 | Uint16 | Uint32 | Uint64 | Uintptr
  | Float32 | Float64 | Complex64 | Complex128
  | Func | Interface | String | UnsafePointer
  deriving DecidableEq, Repr

/-- The `reflect.Kind` of a basic kind. -/
def BasicKind.toKind : BasicKind → Kind
  | .Bool => .Bool
  | .Int => .Int | .Int8 => .Int8 | .Int16 => .Int16 | .Int32 => .Int32 | .Int64 => .Int64
  | .Uint => .Uint | .Uint8 => .Uint8 | .Uint16 => .Uint16 | .Uint32 => .Uint32
  | .Uint64 => .Uint64 | .Uintptr => .Uintptr
  | .Float32 => .Float32 | .Float64 => .Float64
  | .Complex64 => .Complex64 | .Complex128 => .Complex128
  | .Func => .Func | .Interface => .Interface | .String => .String
  | .UnsafePointer => .UnsafePointer

/-- A struct tag in parsed form: the `key:"value"` pairs in the order written. -/
abbrev StructTag := List (String × String)

/-- `StructTag.Get`: the value of the first pair with the given key, `""` when
there is none. -/
def StructTag.Get (tag : StructTag) (key : String) : String :=
  match tag.find? (fun kv => kv.1 == key) with
  | some kv => kv.2
  | none => ""

mutual
/-- A `reflect.Type`, as far as the generator inspects it. -/
inductive GoType
  | basic (k : BasicKind)
  | array (len : Nat) (elem : GoType)
  | chan (elem : GoType)
  | map (key elem : GoType)
  | ptr (elem : GoType)
  | slice (elem : GoType)
  | struct (fields : List StructField)
/-- A `reflect.StructField`: declared name, tag and type. -/
inductive StructField
  | mk (Name : String) (Tag : StructTag) (Typ : GoType)
end

/-- `t.Kind()`. -/
def GoType.Kind : GoType → Kind
  | .basic k => k.toKind
  | .array _ _ => .Array
  | .chan _ => .Chan
  | .map _ _ => .Map
  | .ptr _ => .Ptr
  | .slice _ => .Slice
  | .struct _ => .Struct

/-- Field `Name` of a `StructField`. -/
def StructField.Name : StructField → String
  | .mk n _ _ => n

/-- Field `Tag` of a `StructField`. -/
def StructField.Tag : StructField → StructTag
  | .mk _ t _ => t

/-- Field `Type` of a `StructField`. -/
def StructField.Type : StructField → GoType
  | .mk _ _ t => t

/-! ## Constants and the kind mapping table -/

/-- Constant `TAG`. -/
def TAG : String := "jschema"

/-- The table `mapping`, as a lookup. -/
def mapping : Kind → Option String
  | .Bool => some "bool"
  | .Int => some "integer"
  | .Int8 => some "integer"
  | .Int16 => some "integer"
  | .Int32 => some "integer"
  | .Int64 => some "integer"
  | .Uint => some "integer"
  | .Uint8 => some "integer"
  | .Uint16 => some "integer"
  | .Uint32 => some "integer"
  | .Uint64 => some "integer"
  | .Float32 => some "number"
  | .Float64 => some "number"
  | .String => some "string"
  | .Slice => some "array"
  | .Struct => some "object"
  | .Map => some "object"
  | _ => none

/-- `getTypeFromMapping`: the table entry, `""` when the kind has none. -/
def getTypeFromMapping (k : Kind) : String :=
  match mapping k with
  | some t => t
  | none => ""

/-! ## Tag parsing (`parseTag`, `tagOptions.Contains`) -/

/-- The Go type `tagOptions` (a string). -/
abbrev tagOptions := String

/-- `strings.Index(s, ",")` on the characters of `s`: position of the first
comma, `none` for the result `-1`. -/
def indexComma : List Char → Option Nat
  | [] => none
  | c :: cs => if c = ',' then some 0 else (indexComma cs).map (· + 1)

/-- `parseTag`: split at the first comma. -/
def parseTag (tag : String) : String × tagOptions :=
  match indexComma tag.data with
  | some idx => (String.mk (tag.data.take idx), String.mk (tag.data.drop (idx + 1)))
  | none => (tag, "")

/-- The loop of `tagOptions.Contains`, `for s != "" { ... }`, with the loop
variable `s` as argument.  Each iteration consumes at least one character of a
non-empty `s`, so `fuel` only bounds the number of iterations; `none` signals
that the bound was reached with the loop still running. -/
def ContainsLoop (optionName : String) : Nat → List Char → Option Bool
  | 0, _ => none
  | fuel + 1, s =>
    if s = [] then some false
    else
      match indexComma s with
      | some i =>
        if String.mk (s.take i) = optionName then some true
        else ContainsLoop optionName fuel (s.drop (i + 1))
      | none =>
        if String.mk s = optionName then some true
        else ContainsLoop optionName fuel []

/-- `tagOptions.Contains`.  The loop runs at most `len(o)` iterations and one
final test, so the bound `len(o) + 1` is never reached. -/
def tagOptions.Contains (o : tagOptions) (optionName : String) : Bool :=
  if o.data.length = 0 then false
  else (ContainsLoop optionName (o.data.length + 1) o.data).getD false

/-! ## Schema nodes (`property`, `item`) -/

mutual
/-- The Go struct `property`. -/
inductive property
  | mk (Typ : String) (Items : Option item)
      (Properties : Option (List (String × property)))
      (Required : List String) (AdditionalProperties : Bool)
/-- The Go struct `item`. -/
inductive item
  | mk (Typ : String) (Properties : Option (List (String × property)))
end

/-- Field `Type` of a `property`. -/
def property.Type : property → String
  | .mk t _ _ _ _ => t

/-- Field `Items` of a `property`. -/
def property.Items : property → Option item
  | .mk _ i _ _ _ => i

/-- Field `Properties` of a `property`. -/
def property.Properties : property → Option (List (String × property))
  | .mk _ _ ps _ _ => ps

/-- Field `Required` of a `property`. -/
def property.Required : property → List String
  | .mk _ _ _ r _ => r

/-- Field `AdditionalProperties` of a `property`. -/
def property.AdditionalProperties : property → Bool
  | .mk _ _ _ _ a => a

/-- Field `Type` of an `item`. -/
def item.Type : item → String
  | .mk t _ => t

/-- Field `Properties` of an `item`. -/
def item.Properties : item → Option (List (String × property))
  | .mk _ ps => ps

/-- The zero value `property{}` (what `&property{}` points to). -/
def property.zero : property := .mk "" none none [] false

/-- Map assignment `m[k] = v`. -/
def mapSet {α : Type} : List (String × α) → String → α → List (String × α)
  | [], k, v => [(k, v)]
  | (k', v') :: rest, k, v =>
    if k' = k then (k, v) :: rest else (k', v') :: mapSet rest k v

/-- Map lookup `m[k]`, `none` when the key is absent. -/
def mapGet {α : Type} : List (String × α) → String → Option α
  | [], _ => none
  | (k', v') :: rest, k => if k' = k then some v' else mapGet rest k

/-- Assignment `p.Type = s`. -/
def property.setType : property → String → property
  | .mk _ i ps r a, s => .mk s i ps r a

/-- Assignment `p.Items = it`. -/
def property.setItems : property → Option item → property
  | .mk t _ ps r a, it => .mk t it ps r a

/-- Assignment `p.Properties = ps`. -/
def property.setProperties : property → Option (List (String × property)) → property
  | .mk t i _ r a, ps => .mk t i ps r a

/-- Assignment `p.Required = r`. -/
def property.setRequired : property → List String → property
  | .mk t i ps _ a, r => .mk t i ps r a

/-- Assignment `p.AdditionalProperties = a`. -/
def property.setAdditionalProperties : property → Bool → property
  | .mk t i ps r _, a => .mk t i ps r a

/-! ## The inference engine (`read`, `readFromSlice`, `readFromMap`, `readFromStruct`)

`readFromSlice`, `readFromMap` receive `t.Elem()` and the two field loops
receive the field list `t.Field(0), ..., t.Field(t.NumField()-1)` of the type
they walk, so that every recursive call is on a component of the type. -/

/-- `property.readFromMap` for a map type with `t.Elem() = elem`. -/
def readFromMap (p : property) (elem : GoType) : property :=
  let k := elem.Kind
  if getTypeFromMapping k ≠ "" then
    p.setProperties (some (mapSet [] ".*" (property.mk (getTypeFromMapping k) none none [] false)))
  else
    p.setAdditionalProperties true

mutual
/-- `property.read`.  The `reflect.Struct` case is the body of
`readFromStruct` (stated separately below as `readFromStruct`). -/
def read (p : property) (t : GoType) (opts : tagOptions) : property :=
  let kind := t.Kind
  let p := if getTypeFromMapping kind ≠ "" then p.setType (getTypeFromMapping kind) else p
  match t with
  | .slice elem => readFromSlice p elem
  | .map _ elem => readFromMap p elem
  | .struct fields =>
    let res := readFromStructLoop [] p.Required fields
    (((p.setType "object").setProperties (some res.1)).setRequired res.2).setAdditionalProperties
      false
  | .ptr elem => read p elem opts
  | _ => p
/-- `property.readFromSlice` for a slice type with `t.Elem() = elem`. -/
def readFromSlice (p : property) (elem : GoType) : property :=
  let k := elem.Kind
  if k = Kind.Uint8 then p.setType "string"
  else
    match elem with
    | .struct fields =>
      p.setItems (some (item.mk "object" (some (readFromSliceLoop [] fields))))
    | _ =>
      if getTypeFromMapping k ≠ "" then p.setItems (some (item.mk (getTypeFromMapping k) none))
      else p
/-- The `for` loop of `readFromSlice` from field `i` on, `m` being the current
`p.Items.Properties`. -/
def readFromSliceLoop (m : List (String × property)) :
    List StructField → List (String × property)
  | [] => m
  | .mk fname ftag ftype :: rest =>
    if (parseTag (ftag.Get TAG)).1 ≠ "" then readFromSliceLoop m rest
    else
      let name := (parseTag (ftag.Get "json")).1
      let opts := (parseTag (ftag.Get "json")).2
      let name := if name = "" then fname else name
      readFromSliceLoop (mapSet m name (read property.zero ftype opts)) rest
/-- The `for` loop of `readFromStruct` from field `i` on, `m` being the current
`p.Properties` and `req` the current `p.Required`. -/
def readFromStructLoop (m : List (String × property)) (req : List String) :
    List StructField → List (String × property) × List String
  | [] => (m, req)
  | .mk fname ftag ftype :: rest =>
    if (parseTag (ftag.Get TAG)).1 ≠ "" then readFromStructLoop m req rest
    else
      let name := (parseTag (ftag.Get "json")).1
      let opts := (parseTag (ftag.Get "json")).2
      if name = "-" then readFromStructLoop m req rest
      else
        let name := if name = "" then fname else name
        let m := mapSet m name (read property.zero ftype opts)
        let req :=
          if ¬ opts.Contains "omitempty" = true then
            (if name ≠ "-" then req ++ [name] else req)
          else req
        readFromStructLoop m req rest
end

/-- `property.readFromStruct` for a struct type with the given fields. -/
def readFromStruct (p : property) (fields : List StructField) : property :=
  let p := p.setType "object"
  let p := p.setProperties (some [])
  let p := p.setAdditionalProperties false
  let res := readFromStructLoop [] p.Required fields
  (p.setProperties (some res.1)).setRequired res.2

/-! ## Values (`reflect.Value`) and the metadata harvest -/

/-- Constant `DEFAULT_SCHEMA`. -/
def DEFAULT_SCHEMA : String := "http://json-schema.org/schema#"

/-- Constant `TAG_BASE`. -/
def TAG_BASE : String := "schema"

/-- Constant `TAG_ID`. -/
def TAG_ID : String := "id"

/-- Constant `TAG_DESCRIPTION`. -/
def TAG_DESCRIPTION : String := "description"

/-- Constant `TAG_LINKS`. -/
def TAG_LINKS : String := "links"

/-- Constant `TAG_LINKS_TITLE`. -/
def TAG_LINKS_TITLE : String := "links-title"

/-- Constant `TAG_LINKS_DESCRIPTION`. -/
def TAG_LINKS_DESCRIPTION : String := "links-description"

/-- Constant `TAG_LINKS_METHOD`. -/
def TAG_LINKS_METHOD : String := "links-method"

/-- Constant `TAG_LINKS_HREF`. -/
def TAG_LINKS_HREF : String := "links-href"

/-- Constant `TAG_LINKS_REL`. -/
def TAG_LINKS_REL : String := "links-rel"

mutual
/-- A `reflect.Value`, as far as the harvest inspects it.  `tstr` is
`v.Type().String()`; `invalid` is the zero `Value`, which is also what `Elem()`
returns for a nil pointer or a nil interface.  A `basic` value of kind `String`
carries its contents `s` (ignored for the other kinds); a `basic` value of kind
`Interface` is a nil interface. -/
inductive GoValue
  | invalid
  | basic (k : BasicKind) (tstr : String) (s : String)
  | iface (tstr : String) (dyn : GoValue)
  | ptr (tstr : String) (elem : GoType) (target : GoValue)
  | slice (tstr : String) (elem : GoType) (elems : List GoValue)
  | array (tstr : String) (elem : GoType) (elems : List GoValue)
  | map (tstr : String) (key elem : GoType)
  | chan (tstr : String) (elem : GoType)
  | struct (tstr : String) (fields : List FieldValue)
/-- Field `i` of a struct value: `v.Type().Field(i)` with `v.Field(i)`. -/
inductive FieldValue
  | mk (field : StructField) (value : GoValue)
end

/-- The `v.Type().Field(i)` part of a struct value's field. -/
def FieldValue.field : FieldValue → StructField
  | .mk f _ => f

/-- The `v.Field(i)` part of a struct value's field. -/
def FieldValue.value : FieldValue → GoValue
  | .mk _ v => v

/-- `v.IsValid()`. -/
def GoValue.IsValid : GoValue → Bool
  | .invalid => false
  | _ => true

/-- `v.Kind()`. -/
def GoValue.Kind : GoValue → Kind
  | .invalid => .Invalid
  | .basic k _ _ => k.toKind
  | .iface _ _ => .Interface
  | .ptr _ _ _ => .Ptr
  | .slice _ _ _ => .Slice
  | .array _ _ _ => .Array
  | .map _ _ _ => .Map
  | .chan _ _ => .Chan
  | .struct _ _ => .Struct

/-- `v.Type()`; panics (`none`) on the zero `Value`. -/
def GoValue.Type : GoValue → Option GoType
  | .invalid => none
  | .basic k _ _ => some (.basic k)
  | .iface _ _ => some (.basic .Interface)
  | .ptr _ e _ => some (.ptr e)
  | .slice _ e _ => some (.slice e)
  | .array _ e es => some (.array es.length e)
  | .map _ k e => some (.map k e)
  | .chan _ e => some (.chan e)
  | .struct _ fs => some (.struct (fs.map FieldValue.field))

/-- `v.String()`: the contents for kind `String`, `"<invalid Value>"` for the
zero `Value`, and `"<" + v.Type().String() + " Value>"` otherwise. -/
def GoValue.String : GoValue → String
  | .invalid => "<invalid Value>"
  | .basic k tstr s => if k = BasicKind.String then s else "<" ++ tstr ++ " Value>"
  | .iface tstr _ => "<" ++ tstr ++ " Value>"
  | .ptr tstr _ _ => "<" ++ tstr ++ " Value>"
  | .slice tstr _ _ => "<" ++ tstr ++ " Value>"
  | .array tstr _ _ => "<" ++ tstr ++ " Value>"
  | .map tstr _ _ => "<" ++ tstr ++ " Value>"
  | .chan tstr _ => "<" ++ tstr ++ " Value>"
  | .struct tstr _ => "<" ++ tstr ++ " Value>"

/-- `v.Elem()`: the target of a pointer or the dynamic value of an interface;
panics (`none`) for every other kind. -/
def GoValue.Elem : GoValue → Option GoValue
  | .ptr _ _ target => some target
  | .iface _ dyn => some dyn
  | .basic .Interface _ _ => some .invalid
  | _ => none

/-- The fields `0 .. v.NumField()-1` of a struct value; `NumField` panics
(`none`) for every other kind. -/
def GoValue.Fields : GoValue → Option (List FieldValue)
  | .struct _ fs => some fs
  | _ => none

/-- The Go struct `link`. -/
structure link where
  Title : String
  Description : String
  Method : String
  Href : String
  Rel : String
  deriving DecidableEq, Repr

/-- The zero value `link{}`. -/
def link.zero : link := ⟨"", "", "", "", ""⟩

/-- Whether `json.Marshal(link)` is the text of the empty object: every field
is tagged `omitempty`, so this holds exactly when all five strings are empty. -/
def link.marshalsEmpty (l : link) : Bool :=
  decide (l.Title = "") && decide (l.Description = "") && decide (l.Method = "") &&
    decide (l.Href = "") && decide (l.Rel = "")

/-- The Go type `links` (`[]*link`). -/
abbrev links := List link

/-- The Go struct `Document`; the embedded `property` is the field `prop`, and
`Links` is `none` for the nil pointer. -/
structure Document where
  Schema : String
  Id : String
  Description : String
  Links : Option links
  prop : property

/-- The zero value `Document{}`. -/
def Document.zero : Document := ⟨"", "", "", none, property.zero⟩

/-- `Document.setDefaultSchema`. -/
def setDefaultSchema (d : Document) : Document :=
  let d := if d.Schema = "" then { d with Schema := DEFAULT_SCHEMA } else d
  if d.Links = none then { d with Links := some [] } else d

/-- The `for` loop of `readId` over the fields of `v`, `vstr` being
`v.String()`. -/
def readIdLoop (vstr : String) (d : Document) : List FieldValue → Document
  | [] => d
  | fv :: rest =>
    let tag := fv.field.Tag.Get TAG
    let name := (parseTag tag).1
    let opts := (parseTag tag).2
    if name = "" then readIdLoop vstr d rest
    else if opts.Contains "omitempty" = true then readIdLoop vstr d rest
    else if ¬ opts.Contains TAG_ID = true then readIdLoop vstr d rest
    else readIdLoop vstr { d with Id := vstr } rest

/-- `Document.readId`. -/
def readId (d : Document) (v : GoValue) : Document :=
  if v.Kind ≠ Kind.Struct then d
  else
    match v with
    | .struct _ fs => readIdLoop v.String d fs
    | _ => d

/-- The `for` loop of `readDescription` over the fields of `v`. -/
def readDescriptionLoop (vstr : String) (d : Document) : List FieldValue → Document
  | [] => d
  | fv :: rest =>
    let tag := fv.field.Tag.Get TAG
    let name := (parseTag tag).1
    let opts := (parseTag tag).2
    if name = "" then readDescriptionLoop vstr d rest
    else if opts.Contains "omitempty" = true then readDescriptionLoop vstr d rest
    else if ¬ opts.Contains TAG_DESCRIPTION = true then readDescriptionLoop vstr d rest
    else readDescriptionLoop vstr { d with Description := vstr } rest

/-- `Document.readDescription`. -/
def readDescription (d : Document) (v : GoValue) : Document :=
  if v.Kind ≠ Kind.Struct then d
  else
    match v with
    | .struct _ fs => readDescriptionLoop v.String d fs
    | _ => d

/-- The `switch tag` of `readLinksFromSlice` for field `j` of an element:
the accumulator after the assignment selected by the `jschema` tag name. -/
def linkSwitch (acc : link) (fv : FieldValue) : link :=
  let tag := (parseTag (fv.field.Tag.Get TAG)).1
  if tag = TAG_LINKS_TITLE then { acc with Title := fv.value.String }
  else if tag = TAG_LINKS_DESCRIPTION then { acc with Description := fv.value.String }
  else if tag = TAG_LINKS_METHOD then { acc with Method := fv.value.String }
  else if tag = TAG_LINKS_HREF then { acc with Href := fv.value.String }
  else if tag = TAG_LINKS_REL then { acc with Rel := fv.value.String }
  else acc

/-- The inner loop of `readLinksFromSlice` over the fields of one element. -/
def linkInner (acc : link) : List FieldValue → link
  | [] => acc
  | fv :: rest => linkInner (linkSwitch acc fv) rest

/-- The outer loop of `readLinksFromSlice` over the elements; `none` when
`v.Index(i).Elem()` or `field.NumField()` panics. -/
def linkOuter (acc : link) : List GoValue → Option link
  | [] => some acc
  | e :: rest =>
    match e.Elem with
    | none => none
    | some field =>
      match field.Fields with
      | none => none
      | some fs => linkOuter (linkInner acc fs) rest

/-- `links.readLinksFromSlice` for a slice value with the given elements. -/
def readLinksFromSlice (l : links) (elems : List GoValue) : Option links :=
  match linkOuter link.zero elems with
  | none => none
  | some acc => if acc.marshalsEmpty = false then some (l ++ [acc]) else some l

mutual
/-- `links.readLinks`. -/
def readLinks (l : links) (v : GoValue) : Option links :=
  match v with
  | .invalid => some l
  | .struct _ fs => readLinksFromStructLoop l fs
  | .ptr _ _ target => readLinks l target
  | .slice _ _ elems => readLinksFromSlice l elems
  | _ => some l
/-- The `for` loop of `links.readLinksFromStruct` from field `i` on. -/
def readLinksFromStructLoop (l : links) : List FieldValue → Option links
  | [] => some l
  | .mk f fv :: rest =>
    if fv.Kind = Kind.Ptr then
      match readLinks l fv with
      | none => none
      | some l1 => readLinksFromStructLoop l1 rest
    else
      let tag := (parseTag (f.Tag.Get TAG)).1
      if tag = TAG_BASE then
        match readLinks l fv with
        | none => none
        | some l1 => readLinksFromStructLoop l1 rest
      else if tag = TAG_LINKS then
        match readLinks l fv with
        | none => none
        | some l1 => readLinksFromStructLoop l1 rest
      else readLinksFromStructLoop l rest
end

/-- `Document.Read` on `reflect.ValueOf(variable) = v`; `none` when the call
panics. -/
def Read (d : Document) (v : GoValue) : Option Document :=
  let d := setDefaultSchema d
  match v.Type with
  | none => none
  | some t =>
    let d := { d with prop := read d.prop t "" }
    let d := readId d v
    let d := readDescription d v
    match d.Links with
    | none => none
    | some l =>
      match readLinks l v with
      | none => none
      | some l1 => some { d with Links := some l1 }

/-! ## Vocabulary used to state the properties -/

/-- Name part of a field's `jschema` tag. -/
def jschemaName (f : StructField) : String := (parseTag (f.Tag.Get TAG)).1

/-- Name part of a field's `json` tag. -/
def jsonName (f : StructField) : String := (parseTag (f.Tag.Get "json")).1

/-- Option part of a field's `json` tag. -/
def jsonOpts (f : StructField) : tagOptions := (parseTag (f.Tag.Get "json")).2

/-- Visible name of a field: the `json` tag name if non-empty, the declared
field name otherwise. -/
def visibleName (f : StructField) : String :=
  if jsonName f = "" then f.Name else jsonName f

/-- A field is included iff its `jschema` tag name is empty and its `json` tag
name is not `"-"`. -/
def included (f : StructField) : Bool :=
  decide (jschemaName f = "") && decide (jsonName f ≠ "-")

/-- The last field of `fs` whose visible name is `k`. -/
def lastNamed (k : String) (fs : List StructField) : Option StructField :=
  fs.reverse.find? (fun f => decide (visibleName f = k))

/-! ## Concrete types used as examples -/

/-- The type `struct { Name string; Age int }` whose `Age` field is tagged
`json:",omitempty"`. -/
def personType : GoType :=
  .struct [.mk "Name" [] (.basic .String), .mk "Age" [("json", ",omitempty")] (.basic .Int)]

/-- A field `A int` without tag. -/
def fieldA : StructField := .mk "A" [] (.basic .Int)

/-- A field `B int` tagged `json:",omitempty"`. -/
def fieldB : StructField := .mk "B" [("json", ",omitempty")] (.basic .Int)

/-- A field `Ident string` tagged `json:"ident" jschema:"id"`. -/
def fieldMeta : StructField :=
  .mk "Ident" [("json", "ident"), ("jschema", "id")] (.basic .String)

/-- A field `Secret string` tagged `json:"-"`. -/
def fieldSecret : StructField := .mk "Secret" [("json", "-")] (.basic .String)

/-- The type `T` behind `n` pointer levels. -/
def ptrN : Nat → GoType → GoType
  | 0, t => t
  | n + 1, t => .ptr (ptrN n t)

/-- The type reached from `t` by removing every leading pointer level. -/
def GoType.stripPtr : GoType → GoType
  | .ptr e => e.stripPtr
  | .basic k => .basic k
  | .array n e => .array n e
  | .chan e => .chan e
  | .map k e => .map k e
  | .slice e => .slice e
  | .struct fs => .struct fs

/-- The type `struct { X int }`. -/
def innerType : GoType := .struct [.mk "X" [] (.basic .Int)]

/-- The type `[]struct { Inner struct { X int } }`. -/
def nestedSliceType : GoType := .slice (.struct [.mk "Inner" [] innerType])

/-- The `jschema` tag name of a struct value's field. -/
def tagName (fv : FieldValue) : String := (parseTag (fv.field.Tag.Get TAG)).1

/-- The string value of the last field of `fs` whose `jschema` tag name is `T`,
`dflt` when there is none. -/
def lastTagged (T : String) (dflt : String) (fs : List FieldValue) : String :=
  match fs.reverse.find? (fun fv => decide (tagName fv = T)) with
  | some fv => fv.value.String
  | none => dflt

/-- The link whose five attributes are the last tagged values among `fs`,
falling back on the attributes of `acc`. -/
def harvested (acc : link) (fs : List FieldValue) : link :=
  ⟨lastTagged TAG_LINKS_TITLE acc.Title fs,
   lastTagged TAG_LINKS_DESCRIPTION acc.Description fs,
   lastTagged TAG_LINKS_METHOD acc.Method fs,
   lastTagged TAG_LINKS_HREF acc.Href fs,
   lastTagged TAG_LINKS_REL acc.Rel fs⟩

/-- The fields of a link-bearing record: `e.Elem()` must be a struct. -/
def recordFields (e : GoValue) : Option (List FieldValue) :=
  match e.Elem with
  | some v => v.Fields
  | none => none

/-- All fields of all records of a sequence, in order. -/
def allRecordFields (elems : List GoValue) : List FieldValue :=
  elems.flatMap (fun e => (recordFields e).getD [])

/-- The five fields of the library type `BaseLink`, with the given values. -/
def baseLinkFields (title desc method href rel : String) : List FieldValue :=
  [.mk (.mk "Title" [("json", "-"), ("jschema", "links-title")] (.basic .String))
      (.basic .String "string" title),
   .mk (.mk "Description" [("json", "-"), ("jschema", "links-description")] (.basic .String))
      (.basic .String "string" desc),
   .mk (.mk "Method" [("json", "-"), ("jschema", "links-method")] (.basic .String))
      (.basic .String "string" method),
   .mk (.mk "Href" [("json", "-"), ("jschema", "links-href")] (.basic .String))
      (.basic .String "string" href),
   .mk (.mk "Rel" [("json", "-"), ("jschema", "links-rel")] (.basic .String))
      (.basic .String "string" rel)]

/-- The library type `BaseLink`. -/
def baseLinkType : GoType :=
  .struct ((baseLinkFields "" "" "" "" "").map FieldValue.field)

/-- A `*BaseLink` pointing to a record with the given values. -/
def baseLink (title desc method href rel : String) : GoValue :=
  .ptr "*jsonschema.BaseLink" baseLinkType
    (.struct "jsonschema.BaseLink" (baseLinkFields title desc method href rel))

/-- A value of the library type `Base` with the given `Id`, `Description` and
`Links`. -/
def baseValue (id desc : String) (lks : List GoValue) : GoValue :=
  .struct "jsonschema.Base"
    [.mk (.mk "Id" [("json", "-"), ("jschema", "id")] (.basic .String))
      (.basic .String "string" id),
     .mk (.mk "Description" [("json", "-"), ("jschema", "description")] (.basic .String))
      (.basic .String "string" desc),
     .mk (.mk "Links" [("json", "-"), ("jschema", "links")] (.slice (.ptr baseLinkType)))
      (.slice "jsonschema.BaseLinks" (.ptr baseLinkType) lks)]

/-- The value `T{P: &[]int{1}}` of the type `struct { P *[]int }`. -/
def ptrToIntSliceValue : GoValue :=
  .struct "main.T"
    [.mk (.mk "P" [] (.ptr (.slice (.basic .Int))))
      (.ptr "*[]int" (.slice (.basic .Int))
        (.slice "[]int" (.basic .Int) [.basic .Int "int" ""]))]

/-- A value of the type `struct { Meta string }` whose field is tagged
`jschema:"meta,id"`. -/
def optionIdValue : GoValue :=
  .struct "main.U"
    [.mk (.mk "Meta" [("jschema", "meta,id")] (.basic .String)) (.basic .String "string" "m")]

/-- The test of `readId` / `readDescription` on one field for the keyword `T`:
the `jschema` tag has a non-empty name, and its options contain `T` and do not
contain `omitempty`. -/
def harvestTrigger (T : String) (fv : FieldValue) : Bool :=
  decide ((parseTag (fv.field.Tag.Get TAG)).1 ≠ "") &&
    !(tagOptions.Contains (parseTag (fv.field.Tag.Get TAG)).2 "omitempty") &&
    tagOptions.Contains (parseTag (fv.field.Tag.Get TAG)).2 T

/-- The attribute after the id / description harvest for the keyword `T`: the
string form of the struct `v` when one of its fields passes the test, the
current attribute `cur` otherwise. -/
def harvestAttr (T : String) (cur : String) (v : GoValue) : String :=
  match v with
  | .struct _ fs => if fs.any (harvestTrigger T) = true then v.String else cur
  | _ => cur

/-- A value of the type `struct { A int; Links BaseLinks }` whose `Links`
field is tagged `jschema:"links"` and holds one link with `Href = "/a"`. -/
def linkedValue : GoValue :=
  .struct "main.V"
    [.mk fieldA (.basic .Int "int" ""),
     .mk (.mk "Links" [("json", "-"), ("jschema", "links")] (.slice (.ptr baseLinkType)))
      (.slice "jsonschema.BaseLinks" (.ptr baseLinkType) [baseLink "" "" "" "/a" ""])]

/-! ## Auxiliary lemmas -/

theorem mapGet_mapSet {α : Type} (m : List (String × α)) (k k' : String) (v : α) :
    mapGet (mapSet m k v) k' = if k = k' then some v else mapGet m k' := by
  induction m with
  | nil => simp [mapSet, mapGet]
  | cons hd tl ih =>
    obtain ⟨a, b⟩ := hd
    by_cases h : a = k
    · subst h
      by_cases h2 : a = k' <;> simp [mapSet, mapGet, h2]
    · by_cases h2 : a = k'
      · subst h2
        simp [mapSet, mapGet, h, Ne.symm h]
      · simp [mapSet, mapGet, h, h2, ih]

/-- One iteration of the `readFromStruct` loop, in terms of the field's tags. -/
theorem readFromStructLoop_cons (m : List (String × property)) (req : List String)
    (f : StructField) (rest : List StructField) :
    readFromStructLoop m req (f :: rest) =
      if included f = true then
        readFromStructLoop (mapSet m (visibleName f) (read property.zero f.Type (jsonOpts f)))
          (if (jsonOpts f).Contains "omitempty" = true then req
           else if visibleName f ≠ "-" then req ++ [visibleName f] else req) rest
      else readFromStructLoop m req rest := by
  cases f with
  | mk n tg ty =>
    rw [readFromStructLoop]
    simp only [included, jschemaName, jsonName, jsonOpts, visibleName, StructField.Tag,
      StructField.Name, StructField.Type]
    by_cases h1 : (parseTag (StructTag.Get tg TAG)).1 = ""
    · by_cases h2 : (parseTag (StructTag.Get tg "json")).1 = "-"
      · simp [h1, h2]
      · by_cases h3 : tagOptions.Contains (parseTag (StructTag.Get tg "json")).2 "omitempty" = true
        · simp [h1, h2, h3]
        · simp [h1, h2, h3]
    · simp [h1]

/-- One iteration of the `readFromSlice` loop, in terms of the field's tags. -/
theorem readFromSliceLoop_cons (m : List (String × property))
    (f : StructField) (rest : List StructField) :
    readFromSliceLoop m (f :: rest) =
      if jschemaName f = "" then
        readFromSliceLoop (mapSet m (visibleName f) (read property.zero f.Type (jsonOpts f))) rest
      else readFromSliceLoop m rest := by
  cases f with
  | mk n tg ty =>
    rw [readFromSliceLoop]
    simp only [jschemaName, jsonName, jsonOpts, visibleName, StructField.Tag,
      StructField.Name, StructField.Type]
    by_cases h1 : (parseTag (StructTag.Get tg TAG)).1 = "" <;> simp [h1]

theorem lastNamed_cons (k : String) (f : StructField) (fs : List StructField) :
    lastNamed k (f :: fs) =
      (lastNamed k fs).or (if visibleName f = k then some f else none) := by
  unfold lastNamed
  rw [List.reverse_cons, List.find?_append]
  by_cases h : visibleName f = k <;> simp [List.find?, h]

theorem lastNamed_isSome (k : String) (fs : List StructField) :
    (lastNamed k fs).isSome = true ↔ ∃ f ∈ fs, visibleName f = k := by
  unfold lastNamed
  rw [List.find?_isSome]
  constructor
  · rintro ⟨f, hf, hk⟩
    exact ⟨f, List.mem_reverse.mp hf, of_decide_eq_true hk⟩
  · rintro ⟨f, hf, hk⟩
    exact ⟨f, List.mem_reverse.mpr hf, decide_eq_true hk⟩

/-- Effect of the `readFromStruct` loop on the `Properties` map. -/
theorem readFromStructLoop_get (fs : List StructField) (m : List (String × property))
    (req : List String) (k : String) :
    mapGet (readFromStructLoop m req fs).1 k =
      ((lastNamed k (fs.filter included)).map
        (fun f => read property.zero f.Type (jsonOpts f))).or (mapGet m k) := by
  induction fs generalizing m req with
  | nil => simp [readFromStructLoop, lastNamed]
  | cons f rest ih =>
    rw [readFromStructLoop_cons]
    by_cases hinc : included f = true
    · simp only [hinc, if_true, List.filter_cons]
      rw [ih, lastNamed_cons, mapGet_mapSet]
      cases hl : lastNamed k (List.filter included rest) with
      | some g => simp
      | none =>
        by_cases hk : visibleName f = k <;> simp [hk]
    · simp only [hinc, List.filter_cons]
      exact ih m req

/-- Effect of the `readFromStruct` loop on `Required`, for declared field
names other than `"-"` (Go identifiers). -/
theorem readFromStructLoop_req (fs : List StructField) (m : List (String × property))
    (req : List String) (hn : ∀ f ∈ fs, f.Name ≠ "-") :
    (readFromStructLoop m req fs).2 =
      req ++ (fs.filter (fun f => included f && !(jsonOpts f).Contains "omitempty")).map
        visibleName := by
  induction fs generalizing m req with
  | nil => simp [readFromStructLoop]
  | cons f rest ih =>
    have hrest : ∀ g ∈ rest, g.Name ≠ "-" := fun g hg => hn g (List.mem_cons_of_mem _ hg)
    rw [readFromStructLoop_cons]
    by_cases hinc : included f = true
    · have hvis : visibleName f ≠ "-" := by
        unfold included at hinc
        simp only [Bool.and_eq_true, decide_eq_true_eq] at hinc
        unfold visibleName
        by_cases hj : jsonName f = ""
        · simpa [hj] using hn f (List.mem_cons_self _ _)
        · simpa [hj] using hinc.2
      by_cases ho : (jsonOpts f).Contains "omitempty" = true
      · simp only [hinc, ho, if_true, List.filter_cons]
        rw [ih _ _ hrest]
        simp
      · simp only [hinc, ho, if_true, List.filter_cons]
        rw [ih _ _ hrest]
        simp [hvis]
    · have hinc2 : included f = false := by simpa using hinc
      simp only [hinc2, List.filter_cons, Bool.false_and, Bool.false_eq_true, if_false]
      exact ih _ _ hrest

/-- Effect of the `readFromSlice` loop on the `Items.Properties` map. -/
theorem readFromSliceLoop_get (fs : List StructField) (m : List (String × property))
    (k : String) :
    mapGet (readFromSliceLoop m fs) k =
      ((lastNamed k (fs.filter (fun f => decide (jschemaName f = "")))).map
        (fun f => read property.zero f.Type (jsonOpts f))).or (mapGet m k) := by
  induction fs generalizing m with
  | nil => simp [readFromSliceLoop, lastNamed]
  | cons f rest ih =>
    rw [readFromSliceLoop_cons]
    by_cases hinc : jschemaName f = ""
    · simp only [hinc, if_true, List.filter_cons, decide_True]
      rw [ih, lastNamed_cons, mapGet_mapSet]
      cases hl : lastNamed k (List.filter (fun f => decide (jschemaName f = "")) rest) with
      | some g => simp
      | none =>
        by_cases hk : visibleName f = k <;> simp [hk]
    · simp only [hinc, List.filter_cons, if_false, decide_False]
      exact ih m

theorem readFromStructLoop_append (a b : List StructField) (m : List (String × property))
    (req : List String) :
    readFromStructLoop m req (a ++ b) =
      readFromStructLoop (readFromStructLoop m req a).1 (readFromStructLoop m req a).2 b := by
  induction a generalizing m req with
  | nil => simp [readFromStructLoop]
  | cons f rest ih =>
    rw [List.cons_append, readFromStructLoop_cons, readFromStructLoop_cons]
    by_cases hinc : included f = true
    · simp only [hinc, if_true]
      exact ih _ _
    · simp only [hinc]
      exact ih _ _

theorem readFromSliceLoop_append (a b : List StructField) (m : List (String × property)) :
    readFromSliceLoop m (a ++ b) = readFromSliceLoop (readFromSliceLoop m a) b := by
  induction a generalizing m with
  | nil => simp [readFromSliceLoop]
  | cons f rest ih =>
    rw [List.cons_append, readFromSliceLoop_cons, readFromSliceLoop_cons]
    by_cases hinc : jschemaName f = ""
    · simp only [hinc, if_true]
      exact ih _
    · simp only [hinc, if_false]
      exact ih _


/-- Every entry of the kind mapping table is a non-empty string. -/
theorem mapping_ne_empty (k : Kind) (s : String) (h : mapping k = some s) : s ≠ "" := by
  cases k <;> simp [mapping] at h <;> subst h <;> decide

/-- On a struct type `read` stores the table entry `"object"` and runs
`readFromStruct`. -/
theorem read_struct (p : property) (fields : List StructField) (opts : tagOptions) :
    read p (.struct fields) opts = readFromStruct (p.setType "object") fields := by
  cases p
  rfl

/-- On a slice type `read` stores the table entry `"array"` and runs
`readFromSlice`. -/
theorem read_slice (p : property) (elem : GoType) (opts : tagOptions) :
    read p (.slice elem) opts = readFromSlice (p.setType "array") elem := by
  cases p
  rfl

/-- Kind `Ptr` has no table entry: `read` only dereferences. -/
theorem read_ptr (p : property) (T : GoType) (opts : tagOptions) :
    read p (.ptr T) opts = read p T opts := by
  rw [read]
  simp [GoType.Kind, getTypeFromMapping, mapping]

/-! ## Struct inference -/

/-- C1: for every struct type, `read` on a fresh property yields `Type = "object"`,
`AdditionalProperties = false`, `Items` unset and a `Properties` map `M` whose
keys are exactly the visible names of the included fields; each key maps to
`read` of a fresh property at the type of the last included field with that
visible name.  The example type with `Name string` and `Age int` tagged
`json:",omitempty"` gives the properties `Name: string`, `Age: integer`. -/
theorem C1_struct_shape (fields : List StructField) (opts : tagOptions) :
    (∃ M : List (String × property),
      (read property.zero (.struct fields) opts).Type = "object" ∧
      (read property.zero (.struct fields) opts).AdditionalProperties = false ∧
      (read property.zero (.struct fields) opts).Items = none ∧
      (read property.zero (.struct fields) opts).Properties = some M ∧
      (∀ k, (mapGet M k).isSome = true ↔
        ∃ f ∈ fields, included f = true ∧ visibleName f = k) ∧
      (∀ k, mapGet M k =
        (lastNamed k (fields.filter included)).map
          (fun f => read property.zero f.Type (jsonOpts f)))) ∧
    (read property.zero personType opts).Properties =
      some [("Name", property.mk "string" none none [] false),
            ("Age", property.mk "integer" none none [] false)] := by
  refine ⟨⟨(readFromStructLoop [] [] fields).1, rfl, rfl, rfl, rfl, ?_, ?_⟩, rfl⟩
  · intro k
    rw [readFromStructLoop_get]
    simp only [mapGet, Option.or_none, Option.isSome_map', lastNamed_isSome, List.mem_filter]
    constructor
    · rintro ⟨f, ⟨hf, hi⟩, hk⟩
      exact ⟨f, hf, hi, hk⟩
    · rintro ⟨f, hf, hi, hk⟩
      exact ⟨f, ⟨hf, hi⟩, hk⟩
  · intro k
    rw [readFromStructLoop_get]
    simp [mapGet]

/-- C2: for every struct type (declared field names being Go identifiers, hence
never `"-"`), `read` on a fresh property yields as `Required` the visible
names, in declaration order, of exactly the included fields whose `json`
options do not contain `omitempty`.  `read` takes the type only, so no field
value enters. -/
theorem C2_struct_required (fields : List StructField) (opts : tagOptions)
    (hn : ∀ f ∈ fields, f.Name ≠ "-") :
    (read property.zero (.struct fields) opts).Required =
      (fields.filter (fun f => included f && !(jsonOpts f).Contains "omitempty")).map
        visibleName := by
  have h := readFromStructLoop_req fields [] [] hn
  simp only [List.nil_append] at h
  rw [← h]
  rfl

/-- Instance of C2: fields `A` (no `omitempty`) and `B` (`omitempty`) give
`Required = ["A"]`. -/
theorem C2_struct_required_witness :
    (∀ f ∈ [fieldA, fieldB], f.Name ≠ "-") ∧
    (read property.zero (.struct [fieldA, fieldB]) "").Required = ["A"] :=
  ⟨by decide, (C2_struct_required [fieldA, fieldB] "" (by decide)).trans (by decide)⟩


/-! ## Primitive kinds and slices -/

/-- C3: for every type whose kind is bool, an integer width of the table, a
floating-point width or string, `read` on a fresh property yields exactly the
table's type string and leaves `Items`, `Properties`, `Required` unset and
`AdditionalProperties` false. -/
theorem C3_primitive_kinds (opts : tagOptions) :
    read property.zero (.basic .Bool) opts = property.mk "bool" none none [] false ∧
    read property.zero (.basic .Int) opts = property.mk "integer" none none [] false ∧
    read property.zero (.basic .Int8) opts = property.mk "integer" none none [] false ∧
    read property.zero (.basic .Int16) opts = property.mk "integer" none none [] false ∧
    read property.zero (.basic .Int32) opts = property.mk "integer" none none [] false ∧
    read property.zero (.basic .Int64) opts = property.mk "integer" none none [] false ∧
    read property.zero (.basic .Uint) opts = property.mk "integer" none none [] false ∧
    read property.zero (.basic .Uint8) opts = property.mk "integer" none none [] false ∧
    read property.zero (.basic .Uint16) opts = property.mk "integer" none none [] false ∧
    read property.zero (.basic .Uint32) opts = property.mk "integer" none none [] false ∧
    read property.zero (.basic .Uint64) opts = property.mk "integer" none none [] false ∧
    read property.zero (.basic .Float32) opts = property.mk "number" none none [] false ∧
    read property.zero (.basic .Float64) opts = property.mk "number" none none [] false ∧
    read property.zero (.basic .String) opts = property.mk "string" none none [] false :=
  ⟨rfl, rfl, rfl, rfl, rfl, rfl, rfl, rfl, rfl, rfl, rfl, rfl, rfl, rfl⟩

/-- C4: for every slice type whose element type is a struct, `read` on a fresh
property yields `Type = "array"`, `Items` of type `"object"` with a map `M`
keyed by the visible names of the fields whose `jschema` tag name is empty,
each key mapping to `read` of a fresh property at the type of the last such
field with that name; the node's own `Properties` and `Required` stay unset. -/
theorem C4_slice_of_struct (fields : List StructField) (opts : tagOptions) :
    ∃ M : List (String × property),
      read property.zero (.slice (.struct fields)) opts =
        property.mk "array" (some (item.mk "object" (some M))) none [] false ∧
      (∀ k, (mapGet M k).isSome = true ↔
        ∃ f ∈ fields, jschemaName f = "" ∧ visibleName f = k) ∧
      (∀ k, mapGet M k =
        (lastNamed k (fields.filter (fun f => decide (jschemaName f = "")))).map
          (fun f => read property.zero f.Type (jsonOpts f))) := by
  refine ⟨readFromSliceLoop [] fields, rfl, ?_, ?_⟩
  · intro k
    rw [readFromSliceLoop_get]
    simp only [mapGet, Option.or_none, Option.isSome_map', lastNamed_isSome, List.mem_filter,
      decide_eq_true_eq]
    constructor
    · rintro ⟨f, ⟨hf, hi⟩, hk⟩
      exact ⟨f, hf, hi, hk⟩
    · rintro ⟨f, hf, hi, hk⟩
      exact ⟨f, ⟨hf, hi⟩, hk⟩
  · intro k
    rw [readFromSliceLoop_get]
    simp [mapGet]

/-- C5: for every slice type whose element kind is a primitive kind of the
table other than uint8, `read` on a fresh property yields `Type = "array"` and
`Items` carrying just the mapped type; when the element kind has no table
entry, `Type` is `"array"` and `Items` stays unset. -/
theorem C5_slice_of_primitive (elem : GoType) (opts : tagOptions) :
    read property.zero (.slice (.basic .Bool)) opts =
      property.mk "array" (some (item.mk "bool" none)) none [] false ∧
    read property.zero (.slice (.basic .Int)) opts =
      property.mk "array" (some (item.mk "integer" none)) none [] false ∧
    read property.zero (.slice (.basic .Int8)) opts =
      property.mk "array" (some (item.mk "integer" none)) none [] false ∧
    read property.zero (.slice (.basic .Int16)) opts =
      property.mk "array" (some (item.mk "integer" none)) none [] false ∧
    read property.zero (.slice (.basic .Int32)) opts =
      property.mk "array" (some (item.mk "integer" none)) none [] false ∧
    read property.zero (.slice (.basic .Int64)) opts =
      property.mk "array" (some (item.mk "integer" none)) none [] false ∧
    read property.zero (.slice (.basic .Uint)) opts =
      property.mk "array" (some (item.mk "integer" none)) none [] false ∧
    read property.zero (.slice (.basic .Uint16)) opts =
      property.mk "array" (some (item.mk "integer" none)) none [] false ∧
    read property.zero (.slice (.basic .Uint32)) opts =
      property.mk "array" (some (item.mk "integer" none)) none [] false ∧
    read property.zero (.slice (.basic .Uint64)) opts =
      property.mk "array" (some (item.mk "integer" none)) none [] false ∧
    read property.zero (.slice (.basic .Float32)) opts =
      property.mk "array" (some (item.mk "number" none)) none [] false ∧
    read property.zero (.slice (.basic .Float64)) opts =
      property.mk "array" (some (item.mk "number" none)) none [] false ∧
    read property.zero (.slice (.basic .String)) opts =
      property.mk "array" (some (item.mk "string" none)) none [] false ∧
    (mapping elem.Kind = none →
      read property.zero (.slice elem) opts = property.mk "array" none none [] false) := by
  refine ⟨rfl, rfl, rfl, rfl, rfl, rfl, rfl, rfl, rfl, rfl, rfl, rfl, rfl, ?_⟩
  intro h
  cases elem with
  | basic k => cases k <;> first | rfl | exact absurd h (by decide)
  | array n e => rfl
  | chan e => rfl
  | map a e => simp [GoType.Kind, mapping] at h
  | ptr e => rfl
  | slice e => simp [GoType.Kind, mapping] at h
  | struct fs => simp [GoType.Kind, mapping] at h

/-- Instance of C5 at `[]*int`, whose element kind `Ptr` has no table entry. -/
theorem C5_slice_of_primitive_witness :
    mapping (GoType.ptr (.basic .Int)).Kind = none ∧
    read property.zero (.slice (.ptr (.basic .Int))) "" =
      property.mk "array" none none [] false :=
  ⟨by decide, (C5_slice_of_primitive (.ptr (.basic .Int)) "").2.2.2.2.2.2.2.2.2.2.2.2.2 (by decide)⟩

/-- C6: for every slice type whose element kind is uint8, `read` on a fresh
property yields `Type = "string"` and leaves `Items`, `Properties` and
`Required` unset. -/
theorem C6_byte_slice (elem : GoType) (opts : tagOptions) (h : elem.Kind = Kind.Uint8) :
    read property.zero (.slice elem) opts = property.mk "string" none none [] false := by
  cases elem with
  | basic k => cases k <;> first | rfl | exact absurd h (by decide)
  | array n e => simp [GoType.Kind, mapping] at h
  | chan e => simp [GoType.Kind, mapping] at h
  | map a e => simp [GoType.Kind, mapping] at h
  | ptr e => simp [GoType.Kind, mapping] at h
  | slice e => simp [GoType.Kind, mapping] at h
  | struct fs => simp [GoType.Kind, mapping] at h

/-- Instance of C6 at `[]uint8`. -/
theorem C6_byte_slice_witness :
    (GoType.basic .Uint8).Kind = Kind.Uint8 ∧
    read property.zero (.slice (.basic .Uint8)) "" = property.mk "string" none none [] false :=
  ⟨by decide, C6_byte_slice (.basic .Uint8) "" (by decide)⟩

/-! ## Maps and pointers -/

/-- C7, as amended: for every map type `read` on a fresh property yields a node
of `Type = "object"` (the table entry of kind `Map`); when the value kind has a
table entry `s` its `Properties` is the wildcard map with the single key
`".*"` whose child carries only the type `s`, `AdditionalProperties` staying
false; when the value kind has no entry, `AdditionalProperties` is true and
`Properties` stays unset. -/
theorem C7_map_inference (key elem : GoType) (opts : tagOptions) :
    (∀ s, mapping elem.Kind = some s →
      read property.zero (.map key elem) opts =
        property.mk "object" none (some [(".*", property.mk s none none [] false)]) [] false) ∧
    (mapping elem.Kind = none →
      read property.zero (.map key elem) opts = property.mk "object" none none [] true) := by
  have hr : read property.zero (.map key elem) opts =
      readFromMap (property.mk "object" none none [] false) elem := rfl
  constructor
  · intro s hs
    have hne := mapping_ne_empty _ _ hs
    rw [hr]
    simp [readFromMap, getTypeFromMapping, hs, hne, property.setProperties, mapSet]
  · intro hn
    rw [hr]
    simp [readFromMap, getTypeFromMapping, hn, property.setAdditionalProperties]

/-- Instance of C7 at `map[string]int` and at `map[string]*int`. -/
theorem C7_map_inference_witness :
    (mapping (GoType.basic .Int).Kind = some "integer" ∧
      read property.zero (.map (.basic .String) (.basic .Int)) "" =
        property.mk "object" none
          (some [(".*", property.mk "integer" none none [] false)]) [] false) ∧
    (mapping (GoType.ptr (.basic .Int)).Kind = none ∧
      read property.zero (.map (.basic .String) (.ptr (.basic .Int))) "" =
        property.mk "object" none none [] true) :=
  ⟨⟨by decide, (C7_map_inference (.basic .String) (.basic .Int) "").1 "integer" (by decide)⟩,
   ⟨by decide, (C7_map_inference (.basic .String) (.ptr (.basic .Int)) "").2 (by decide)⟩⟩

/-- C7, as stated, fails at `map[string]int` and at `map[string]*int`: the
result is not the schema made of `properties` alone, nor the schema made of
`additionalProperties` alone, because the node also carries `Type = "object"`. -/
theorem C7_map_node_is_typed :
    read property.zero (.map (.basic .String) (.basic .Int)) "" ≠
      property.mk "" none (some [(".*", property.mk "integer" none none [] false)]) [] false ∧
    read property.zero (.map (.basic .String) (.ptr (.basic .Int))) "" ≠
      property.mk "" none none [] true ∧
    (read property.zero (.map (.basic .String) (.basic .Int)) "").Type = "object" := by
  refine ⟨fun h => ?_, fun h => ?_, rfl⟩
  · exact absurd (congrArg property.Type h) (by decide)
  · exact absurd (congrArg property.Type h) (by decide)

/-- C8: `read` of pointer-to-`T` equals `read` of `T` from every starting
property, hence also through any number of pointer levels; and a struct field
of type `*T` gives the same struct schema (child property and `Required`) as
the same field with type `T`. -/
theorem C8_pointer_transparency (p : property) (T : GoType) (opts : tagOptions) :
    read p (.ptr T) opts = read p T opts ∧
    (∀ n, read p (ptrN n T) opts = read p T opts) ∧
    (∀ (pre post : List StructField) (name : String) (tag : StructTag),
      read p (.struct (pre ++ StructField.mk name tag (.ptr T) :: post)) opts =
        read p (.struct (pre ++ StructField.mk name tag T :: post)) opts) := by
  refine ⟨read_ptr p T opts, ?_, ?_⟩
  · intro n
    induction n with
    | zero => rfl
    | succ n ih => rw [ptrN, read_ptr, ih]
  · intro pre post name tag
    have hstep : ∀ m req, readFromStructLoop m req (StructField.mk name tag (.ptr T) :: post) =
        readFromStructLoop m req (StructField.mk name tag T :: post) := by
      intro m req
      rw [readFromStructLoop_cons, readFromStructLoop_cons]
      simp only [included, jschemaName, jsonName, jsonOpts, visibleName, StructField.Tag,
        StructField.Name, StructField.Type, read_ptr]
    have hloop : ∀ m req, readFromStructLoop m req (pre ++ StructField.mk name tag (.ptr T) :: post) =
        readFromStructLoop m req (pre ++ StructField.mk name tag T :: post) := by
      intro m req
      rw [readFromStructLoop_append, readFromStructLoop_append, hstep]
    rw [read_struct, read_struct]
    unfold readFromStruct
    simp only [hloop]

/-! ## Excluded fields -/

theorem parseTag_empty : parseTag "" = ("", "") := rfl

theorem parseTag_leading_comma (rest : String) : (parseTag ("," ++ rest)).1 = "" := by
  have h : ("," ++ rest).data = ',' :: rest.data := by
    rw [String.data_append]
    rfl
  simp [parseTag, h, indexComma]

/-- The `readFromStruct` loop skips a field that is not included. -/
theorem readFromStructLoop_skip (pre post : List StructField) (f : StructField)
    (h : included f = false) (m : List (String × property)) (req : List String) :
    readFromStructLoop m req (pre ++ f :: post) = readFromStructLoop m req (pre ++ post) := by
  rw [readFromStructLoop_append, readFromStructLoop_append, readFromStructLoop_cons]
  simp [h]

/-- The `readFromSlice` loop skips a field whose `jschema` tag has a name. -/
theorem readFromSliceLoop_skip (pre post : List StructField) (f : StructField)
    (h : jschemaName f ≠ "") (m : List (String × property)) :
    readFromSliceLoop m (pre ++ f :: post) = readFromSliceLoop m (pre ++ post) := by
  rw [readFromSliceLoop_append, readFromSliceLoop_append, readFromSliceLoop_cons]
  simp [h]

/-- C9: a field whose `jschema` tag has a non-empty name contributes nothing:
the schema of the struct, and of a slice of the struct, is the schema obtained
with the field removed, whatever its `json` tag.  Conversely a field whose
`jschema` name is empty is a key of the slice's `Items.Properties`, and of the
struct's `Properties` unless its `json` name is `"-"`; the `jschema` name is
empty when the tag is absent or its value starts with a comma. -/
theorem C9_metadata_fields_excluded (pre post : List StructField) (f : StructField)
    (opts : tagOptions) :
    (jschemaName f ≠ "" →
      ∀ p : property,
        read p (.struct (pre ++ f :: post)) opts = read p (.struct (pre ++ post)) opts ∧
        read p (.slice (.struct (pre ++ f :: post))) opts =
          read p (.slice (.struct (pre ++ post))) opts) ∧
    (jschemaName f = "" →
      (jsonName f ≠ "-" →
        ∃ M, (read property.zero (.struct (pre ++ f :: post)) opts).Properties = some M ∧
          (mapGet M (visibleName f)).isSome = true) ∧
      (∃ M, read property.zero (.slice (.struct (pre ++ f :: post))) opts =
          property.mk "array" (some (item.mk "object" (some M))) none [] false ∧
          (mapGet M (visibleName f)).isSome = true)) ∧
    (∀ (name rest : String) (others : StructTag) (typ : GoType),
      jschemaName (StructField.mk name ((TAG, "," ++ rest) :: others) typ) = "") ∧
    (∀ (name : String) (tag : StructTag) (typ : GoType),
      tag.Get TAG = "" → jschemaName (StructField.mk name tag typ) = "") := by
  refine ⟨?_, ?_, ?_, ?_⟩
  · intro h p
    have hinc : included f = false := by simp [included, h]
    constructor
    · rw [read_struct, read_struct]
      unfold readFromStruct
      simp only [readFromStructLoop_skip pre post f hinc]
    · rw [read_slice, read_slice]
      unfold readFromSlice
      simp only [readFromSliceLoop_skip pre post f h, GoType.Kind]
  · intro h
    constructor
    · intro hj
      refine ⟨(readFromStructLoop [] [] (pre ++ f :: post)).1, rfl, ?_⟩
      rw [readFromStructLoop_get]
      simp only [mapGet, Option.or_none, Option.isSome_map', lastNamed_isSome, List.mem_filter]
      exact ⟨f, ⟨by simp, by simp [included, h, hj]⟩, rfl⟩
    · refine ⟨readFromSliceLoop [] (pre ++ f :: post), rfl, ?_⟩
      rw [readFromSliceLoop_get]
      simp only [mapGet, Option.or_none, Option.isSome_map', lastNamed_isSome, List.mem_filter]
      exact ⟨f, ⟨by simp, by simp [h]⟩, rfl⟩
  · intro name rest others typ
    have hg : StructTag.Get ((TAG, "," ++ rest) :: others) TAG = "," ++ rest := by
      simp [StructTag.Get, List.find?]
    simp only [jschemaName, StructField.Tag, hg]
    exact parseTag_leading_comma rest
  · intro name tag typ h
    simp only [jschemaName, StructField.Tag, h]
    rfl

/-- Instance of C9: a field tagged `jschema:"id"` with `json:"ident"` leaves
the schema of the struct and of the slice unchanged, while the field `A`
without `jschema` tag is a key in both. -/
theorem C9_metadata_fields_excluded_witness :
    (jschemaName fieldMeta ≠ "" ∧
      read property.zero (.struct ([fieldA] ++ fieldMeta :: [fieldB])) "" =
        read property.zero (.struct ([fieldA] ++ [fieldB])) "" ∧
      read property.zero (.slice (.struct ([fieldA] ++ fieldMeta :: [fieldB]))) "" =
        read property.zero (.slice (.struct ([fieldA] ++ [fieldB]))) "") ∧
    (jschemaName fieldA = "" ∧ jsonName fieldA ≠ "-" ∧
      (∃ M, (read property.zero (.struct ([] ++ fieldA :: [fieldB])) "").Properties = some M ∧
        (mapGet M (visibleName fieldA)).isSome = true)) ∧
    (StructTag.Get [] TAG = "" ∧ jschemaName (StructField.mk "A" [] (.basic .Int)) = "") :=
  ⟨⟨by decide,
    ((C9_metadata_fields_excluded [fieldA] [fieldB] fieldMeta "").1 (by decide)) property.zero⟩,
   ⟨by decide, by decide,
    ((C9_metadata_fields_excluded [] [fieldB] fieldA "").2.1 (by decide)).1 (by decide)⟩,
   ⟨by decide,
    (C9_metadata_fields_excluded [] [] fieldA "").2.2.2 "A" [] (.basic .Int) (by decide)⟩⟩

/-! ## The omit sentinel -/

/-- In a struct node (declared field names being Go identifiers, never `"-"`)
the key `"-"` is absent from `Properties` and from `Required`. -/
theorem struct_node_omits_sentinel (fields : List StructField) (opts : tagOptions)
    (hn : ∀ f ∈ fields, f.Name ≠ "-") :
    (∃ M, (read property.zero (.struct fields) opts).Properties = some M ∧
      mapGet M "-" = none) ∧
    "-" ∉ (read property.zero (.struct fields) opts).Required := by
  have hvis : ∀ f ∈ fields, included f = true → visibleName f ≠ "-" := by
    intro f hf hinc
    unfold included at hinc
    simp only [Bool.and_eq_true, decide_eq_true_eq] at hinc
    unfold visibleName
    by_cases hj : jsonName f = ""
    · simpa [hj] using hn f hf
    · simpa [hj] using hinc.2
  constructor
  · refine ⟨(readFromStructLoop [] [] fields).1, rfl, ?_⟩
    rw [readFromStructLoop_get]
    have hnone : lastNamed "-" (fields.filter included) = none := by
      rw [← Option.not_isSome_iff_eq_none, lastNamed_isSome]
      rintro ⟨g, hg, hk⟩
      rw [List.mem_filter] at hg
      exact hvis g hg.1 hg.2 hk
    simp [hnone, mapGet]
  · have hreq : (read property.zero (.struct fields) opts).Required =
        (readFromStructLoop [] [] fields).2 := rfl
    rw [hreq, readFromStructLoop_req fields [] [] hn]
    simp only [List.nil_append, List.mem_map, List.mem_filter, Bool.and_eq_true]
    rintro ⟨g, ⟨hg, hinc, -⟩, hk⟩
    exact hvis g hg hinc hk

/-- C10, evaluation at the failing input: for a slice whose element struct has
the field `Secret string` tagged `json:"-"`, `readFromSlice` stores the key
`"-"` in `Items.Properties`, whereas `readFromStruct` on the same struct
omits the field. -/
theorem C10_items_keep_omitted_field :
    read property.zero (.slice (.struct [fieldSecret])) "" =
      property.mk "array"
        (some (item.mk "object" (some [("-", property.mk "string" none none [] false)])))
        none [] false ∧
    read property.zero (.struct [fieldSecret]) "" =
      property.mk "object" none (some []) [] false :=
  ⟨rfl, rfl⟩

/-! ## Tag parsing -/

theorem indexComma_none (l : List Char) : indexComma l = none ↔ ',' ∉ l := by
  induction l with
  | nil => simp [indexComma]
  | cons c cs ih =>
    by_cases h : c = ','
    · simp [indexComma, h]
    · simp [indexComma, h, ih, Ne.symm h]

theorem indexComma_some (l : List Char) (i : Nat) (h : indexComma l = some i) :
    l = l.take i ++ ',' :: l.drop (i + 1) ∧ ',' ∉ l.take i := by
  induction l generalizing i with
  | nil => simp [indexComma] at h
  | cons c cs ih =>
    by_cases hc : c = ','
    · simp [indexComma, hc] at h
      subst h
      simp [hc]
    · simp only [indexComma, hc, if_false, Option.map_eq_some'] at h
      obtain ⟨j, hj, rfl⟩ := h
      obtain ⟨h1, h2⟩ := ih j hj
      refine ⟨?_, ?_⟩
      · simp only [List.take_succ_cons, List.drop_succ_cons, List.cons_append]
        rw [← h1]
      · simp only [List.take_succ_cons, List.mem_cons, not_or]
        exact ⟨Ne.symm hc, h2⟩

theorem indexComma_isSome (l : List Char) (h : ',' ∈ l) : ∃ i, indexComma l = some i := by
  cases hi : indexComma l with
  | none => exact absurd h ((indexComma_none l).mp hi)
  | some i => exact ⟨i, rfl⟩

/-- C17: `parseTag` splits at the first comma: when `tag` contains a comma the
result `(name, rest)` satisfies `name ++ "," ++ rest = tag` with `name` free of
commas; when it contains none the result is `(tag, "")`; `parseTag ""` is
`("", "")`, and the empty option string contains no token. -/
theorem C17_parseTag_first_comma (tag : String) :
    (',' ∈ tag.data →
      (parseTag tag).1 ++ "," ++ (parseTag tag).2 = tag ∧ ',' ∉ (parseTag tag).1.data) ∧
    (',' ∉ tag.data → parseTag tag = (tag, "")) ∧
    parseTag "" = ("", "") ∧
    (∀ x : String, tagOptions.Contains "" x = false) := by
  refine ⟨?_, ?_, rfl, fun x => rfl⟩
  · intro h
    obtain ⟨i, hi⟩ := indexComma_isSome _ h
    obtain ⟨h1, h2⟩ := indexComma_some _ _ hi
    simp only [parseTag, hi]
    refine ⟨?_, h2⟩
    apply String.ext
    simp only [String.data_append]
    rw [List.append_assoc, List.singleton_append]
    exact h1.symm
  · intro h
    have hn := (indexComma_none _).mpr h
    simp only [parseTag, hn]

/-- Instance of C17 at `"name,omitempty,x"` and at `"name"`. -/
theorem C17_parseTag_first_comma_witness :
    (',' ∈ ("name,omitempty,x" : String).data ∧
      parseTag "name,omitempty,x" = ("name", "omitempty,x") ∧
      (parseTag "name,omitempty,x").1 ++ "," ++ (parseTag "name,omitempty,x").2 =
        "name,omitempty,x") ∧
    (',' ∉ ("name" : String).data ∧ parseTag "name" = ("name", "")) :=
  ⟨⟨by decide, by decide,
    ((C17_parseTag_first_comma "name,omitempty,x").1 (by decide)).1⟩,
   ⟨by decide, (C17_parseTag_first_comma "name").2.1 (by decide)⟩⟩

theorem splitOn_comma_first (s : List Char) (i : Nat) (h : indexComma s = some i) :
    List.splitOn ',' s = s.take i :: List.splitOn ',' (s.drop (i + 1)) := by
  obtain ⟨h1, h2⟩ := indexComma_some s i h
  have hsplit := List.splitOnP_first (· == ',') (s.take i)
    (fun c hc => by
      intro hcc
      have : c = ',' := by simpa using hcc
      exact h2 (this ▸ hc))
    ',' (by simp) (s.drop (i + 1))
  unfold List.splitOn
  rw [← h1] at hsplit
  exact hsplit

theorem splitOn_comma_single (s : List Char) (h : indexComma s = none) :
    List.splitOn ',' s = [s] := by
  have hn := (indexComma_none s).mp h
  unfold List.splitOn
  apply List.splitOnP_eq_single
  intro c hc hcc
  have : c = ',' := by simpa using hcc
  exact hn (this ▸ hc)

theorem drop_length_lt_of_indexComma (s : List Char) (i : Nat) (h : indexComma s = some i) :
    (s.drop (i + 1)).length < s.length := by
  obtain ⟨h1, -⟩ := indexComma_some s i h
  have := congrArg List.length h1
  simp only [List.length_append, List.length_cons] at this
  omega

/-- With more fuel than characters the loop of `Contains` returns. -/
theorem ContainsLoop_isSome (x : String) (fuel : Nat) (s : List Char) (h : s.length < fuel) :
    ∃ b, ContainsLoop x fuel s = some b := by
  induction fuel generalizing s with
  | zero => omega
  | succ n ih =>
    unfold ContainsLoop
    by_cases hs : s = []
    · exact ⟨false, by simp [hs]⟩
    · have hpos : 0 < s.length := List.length_pos.mpr hs
      cases hi : indexComma s with
      | none =>
        by_cases hx : String.mk s = x
        · exact ⟨true, by simp [hs, hx]⟩
        · obtain ⟨b, hb⟩ := ih [] (by simp; omega)
          exact ⟨b, by simp [hs, hx, hb]⟩
      | some i =>
        by_cases hx : String.mk (s.take i) = x
        · exact ⟨true, by simp [hs, hx]⟩
        · have hlt := drop_length_lt_of_indexComma s i hi
          obtain ⟨b, hb⟩ := ih (s.drop (i + 1)) (by omega)
          exact ⟨b, by simp [hs, hx, hb]⟩

theorem String_mk_eq_iff (l : List Char) (x : String) : String.mk l = x ↔ l = x.data := by
  constructor
  · intro h
    rw [← h]
  · intro h
    rw [h]

/-- With more fuel than characters the loop of `Contains` decides, for a
non-empty token, membership among the comma-separated pieces. -/
theorem ContainsLoop_spec (x : String) (hx : x.data ≠ []) (fuel : Nat) (s : List Char)
    (h : s.length < fuel) :
    ContainsLoop x fuel s = some (decide (x.data ∈ List.splitOn ',' s)) := by
  induction fuel generalizing s with
  | zero => omega
  | succ n ih =>
    unfold ContainsLoop
    by_cases hs : s = []
    · subst hs
      simp [List.splitOn_nil, hx]
    · have hpos : 0 < s.length := List.length_pos.mpr hs
      cases hi : indexComma s with
      | none =>
        rw [splitOn_comma_single s hi]
        by_cases hxs : String.mk s = x
        · have := (String_mk_eq_iff s x).mp hxs
          simp [hs, hxs, this, hx]
        · have hne : ¬ x.data = s := fun hh => hxs ((String_mk_eq_iff s x).mpr hh.symm)
          have hnil := ih [] (by simp; omega)
          simp only [hs, if_false, hxs, hnil, List.splitOn_nil, List.mem_singleton, hx, hne]
      | some i =>
        rw [splitOn_comma_first s i hi]
        by_cases hxs : String.mk (s.take i) = x
        · have := (String_mk_eq_iff _ x).mp hxs
          simp [hs, hxs, this]
        · have hne : ¬ x.data = s.take i := fun hh => hxs ((String_mk_eq_iff _ x).mpr hh.symm)
          have hlt := drop_length_lt_of_indexComma s i hi
          have hrec := ih (s.drop (i + 1)) (by omega)
          simp only [hs, if_false, hxs, hrec, List.mem_cons, hne, false_or]

/-- C18: `Contains` is whole-token membership among the pieces of `o` split at
every comma, for every non-empty token `x`; its loop returns for every `o`
within the bound `len(o) + 1`; `"omitemptyx"` and `"xomitempty"` do not contain
`"omitempty"`. -/
theorem C18_contains_membership (o x : String) :
    (∃ b, ContainsLoop x (o.data.length + 1) o.data = some b) ∧
    (x ≠ "" → (tagOptions.Contains o x = true ↔ x.data ∈ List.splitOn ',' o.data)) ∧
    tagOptions.Contains "omitemptyx" "omitempty" = false ∧
    tagOptions.Contains "a,xomitempty" "omitempty" = false ∧
    tagOptions.Contains "a,omitempty,b" "omitempty" = true := by
  refine ⟨ContainsLoop_isSome x _ _ (Nat.lt_succ_self _), ?_, by decide, by decide, by decide⟩
  intro hx
  have hxd : x.data ≠ [] := by
    intro hh
    apply hx
    apply String.ext
    rw [hh]
  unfold tagOptions.Contains
  by_cases ho : o.data.length = 0
  · have hnil : o.data = [] := List.length_eq_zero.mp ho
    simp [hnil, List.splitOn_nil, hxd]
  · rw [ContainsLoop_spec x hxd _ _ (Nat.lt_succ_self _)]
    simp only [ho, if_false, Option.getD_some, decide_eq_true_eq]

/-- Instance of C18: the token `"omitempty"` in `"name,omitempty"`. -/
theorem C18_contains_membership_witness :
    ("omitempty" : String) ≠ "" ∧
    (tagOptions.Contains "name,omitempty" "omitempty" = true ↔
      ("omitempty" : String).data ∈ List.splitOn ',' ("name,omitempty" : String).data) :=
  ⟨by decide, (C18_contains_membership "name,omitempty" "omitempty").2.1 (by decide)⟩

/-! ## Items of a slice of structs -/

theorem read_stripPtr (p : property) (opts : tagOptions) :
    (t : GoType) → read p t opts = read p t.stripPtr opts
  | .ptr e => by
    rw [read_ptr, GoType.stripPtr]
    exact read_stripPtr p opts e
  | .basic _ => rfl
  | .array _ _ => rfl
  | .chan _ => rfl
  | .map _ _ => rfl
  | .slice _ => rfl
  | .struct _ => rfl

theorem stripPtr_kind_ne_ptr : (t : GoType) → t.stripPtr.Kind ≠ Kind.Ptr
  | .ptr e => by
    rw [GoType.stripPtr]
    exact stripPtr_kind_ne_ptr e
  | .basic k => by cases k <;> simp [GoType.stripPtr, GoType.Kind, BasicKind.toKind]
  | .array _ _ => by simp [GoType.stripPtr, GoType.Kind]
  | .chan _ => by simp [GoType.stripPtr, GoType.Kind]
  | .map _ _ => by simp [GoType.stripPtr, GoType.Kind]
  | .slice _ => by simp [GoType.stripPtr, GoType.Kind]
  | .struct _ => by simp [GoType.stripPtr, GoType.Kind]

theorem setType_Required (p : property) (s : String) : (p.setType s).Required = p.Required := by
  cases p
  rfl

/-- Only the struct case of `read` touches `Required`. -/
theorem read_Required_of_not_struct (p : property) (t : GoType) (opts : tagOptions)
    (hs : t.Kind ≠ Kind.Struct) (hp : t.Kind ≠ Kind.Ptr) :
    (read p t opts).Required = p.Required := by
  cases p with
  | mk ty it ps r a =>
    cases t with
    | basic k => cases k <;> rfl
    | array n e => rfl
    | chan e => rfl
    | map k e =>
      rw [read]
      simp only [readFromMap]
      split <;> split <;> rfl
    | ptr e => simp [GoType.Kind] at hp
    | slice e =>
      rw [read_slice]
      cases e <;> simp only [readFromSlice] <;> split_ifs <;> rfl
    | struct fs => simp [GoType.Kind] at hs

theorem lastNamed_some (k : String) (fs : List StructField) (f : StructField)
    (h : lastNamed k fs = some f) : f ∈ fs ∧ visibleName f = k := by
  unfold lastNamed at h
  have h1 := List.find?_some h
  have h2 := List.mem_of_find?_eq_some h
  exact ⟨List.mem_reverse.mp h2, of_decide_eq_true h1⟩

/-- C11, as amended: in the `Items` of a slice of structs the item itself has no
`Required` attribute, and every child of `Items.Properties` is `read` of a
fresh property at the type of a field with empty `jschema` name; that child
has an empty `Required` list when the field's type, pointer levels removed,
is not a struct, and carries the `Required` list of struct inference when it
is one (declared field names being Go identifiers). -/
theorem C11_items_required (fields : List StructField) (opts : tagOptions) :
    ∃ M : List (String × property),
      (read property.zero (.slice (.struct fields)) opts).Items =
        some (item.mk "object" (some M)) ∧
      ∀ k child, mapGet M k = some child →
        ∃ f ∈ fields, jschemaName f = "" ∧ visibleName f = k ∧
          child = read property.zero f.Type (jsonOpts f) ∧
          (f.Type.stripPtr.Kind ≠ Kind.Struct → child.Required = []) ∧
          (∀ fs, f.Type.stripPtr = .struct fs → (∀ g ∈ fs, g.Name ≠ "-") →
            child.Required =
              (fs.filter (fun g => included g && !(jsonOpts g).Contains "omitempty")).map
                visibleName) := by
  refine ⟨readFromSliceLoop [] fields, rfl, ?_⟩
  intro k child hk
  rw [readFromSliceLoop_get] at hk
  simp only [mapGet, Option.or_none, Option.map_eq_some'] at hk
  obtain ⟨f, hf, hchild⟩ := hk
  obtain ⟨hmem, hvis⟩ := lastNamed_some _ _ _ hf
  rw [List.mem_filter] at hmem
  refine ⟨f, hmem.1, of_decide_eq_true hmem.2, hvis, hchild.symm, ?_, ?_⟩
  · intro hns
    rw [← hchild, read_stripPtr]
    exact read_Required_of_not_struct _ _ _ hns (stripPtr_kind_ne_ptr _)
  · intro fs hfs hn
    rw [← hchild, read_stripPtr, hfs]
    have h := readFromStructLoop_req fs [] [] hn
    simp only [List.nil_append] at h
    rw [← h]
    rfl

/-- Instance of C11 at `[]struct { A int; B int }`: the key `"A"` of
`Items.Properties` holds the schema of the `int` field `A`, whose `Required`
list is empty. -/
theorem C11_items_required_witness :
    ∃ f ∈ [fieldA, fieldB], jschemaName f = "" ∧ visibleName f = "A" ∧
      property.mk "integer" none none [] false = read property.zero f.Type (jsonOpts f) ∧
      (f.Type.stripPtr.Kind ≠ Kind.Struct →
        (property.mk "integer" none none [] false).Required = []) := by
  obtain ⟨M, hM, h⟩ := C11_items_required [fieldA, fieldB] ""
  have hItems : (read property.zero (.slice (.struct [fieldA, fieldB])) "").Items =
      some (item.mk "object"
        (some [("A", property.mk "integer" none none [] false),
               ("B", property.mk "integer" none none [] false)])) := rfl
  rw [hItems] at hM
  injection hM with h1
  injection h1 with _ h2
  injection h2 with h3
  subst h3
  obtain ⟨f, hf, hj, hv, hc, hr, -⟩ := h "A" (property.mk "integer" none none [] false) rfl
  exact ⟨f, hf, hj, hv, hc, hr⟩

/-- C11, as stated, fails at `[]struct { Inner struct { X int } }`: the child
`Inner` inside `Items.Properties` carries `Required = ["X"]`. -/
theorem C11_nested_struct_in_items_has_required :
    read property.zero nestedSliceType "" =
      property.mk "array"
        (some (item.mk "object"
          (some [("Inner",
            property.mk "object" none
              (some [("X", property.mk "integer" none none [] false)]) ["X"] false)])))
        none [] false ∧
    ∃ it M child,
      (read property.zero nestedSliceType "").Items = some it ∧
      it.Properties = some M ∧ mapGet M "Inner" = some child ∧ child.Required ≠ [] :=
  ⟨rfl, item.mk "object"
      (some [("Inner",
        property.mk "object" none
          (some [("X", property.mk "integer" none none [] false)]) ["X"] false)]),
    _, _, rfl, rfl, rfl, by decide⟩

/-! ## Pointers below containers -/

/-- C19, as amended: below a container a pointer is not dereferenced.  For every
type `T`, a slice of pointer-to-`T` yields `Type = "array"` with `Items` unset,
and a map with value type pointer-to-`T` yields `Type = "object"` with
`AdditionalProperties = true` and `Properties` unset: the element kind `Ptr` is
looked up in the kind table as it is, and has no entry. -/
theorem C19_pointer_below_container (T key : GoType) (opts : tagOptions) :
    mapping (GoType.ptr T).Kind = none ∧
    read property.zero (.slice (.ptr T)) opts = property.mk "array" none none [] false ∧
    read property.zero (.map key (.ptr T)) opts = property.mk "object" none none [] true :=
  ⟨rfl, rfl, rfl⟩

/-- C19, as stated, fails at `E = struct { A int }`: `[]*E` has no `Items`
while `[]E` has them, and `map[string]*int` allows additional properties while
`map[string]int` has the wildcard property. -/
theorem C19_slice_of_pointer_differs :
    read property.zero (.slice (.ptr (.struct [fieldA]))) "" ≠
      read property.zero (.slice (.struct [fieldA])) "" ∧
    read property.zero (.map (.basic .String) (.ptr (.basic .Int))) "" ≠
      read property.zero (.map (.basic .String) (.basic .Int)) "" ∧
    read property.zero (.slice (.ptr (.struct [fieldA]))) "" =
      property.mk "array" none none [] false ∧
    read property.zero (.slice (.struct [fieldA])) "" =
      property.mk "array"
        (some (item.mk "object" (some [("A", property.mk "integer" none none [] false)])))
        none [] false := by
  refine ⟨fun h => ?_, fun h => ?_, rfl, rfl⟩
  · exact absurd (congrArg (fun p => p.Items.isSome) h) (by decide)
  · exact absurd (congrArg property.AdditionalProperties h) (by decide)

/-! ## The metadata harvest -/

/-- C12, evaluation at the failing input: for the value `T{P: &[]int{1}}` of
the type `struct { P *[]int }` the links harvest follows the pointer, reaches
the slice and calls `Elem()` on its `int` element, so `Read` panics; the
schema inference alone, and the harvest of the same struct with a nil pointer,
complete. -/
theorem C12_read_panics_on_pointer_to_slice :
    Read Document.zero ptrToIntSliceValue = none ∧
    readLinks [] ptrToIntSliceValue = none ∧
    ptrToIntSliceValue.Type = some (.struct [.mk "P" [] (.ptr (.slice (.basic .Int)))]) ∧
    readLinks []
      (.struct "main.T"
        [.mk (.mk "P" [] (.ptr (.slice (.basic .Int))))
          (.ptr "*[]int" (.slice (.basic .Int)) .invalid)]) = some [] :=
  ⟨rfl, rfl, rfl, rfl⟩

/-- C14, evaluation at the failing input: for a value of the library type
`Base`, whose field `Id` is tagged `jschema:"id"` and `Description` is tagged
`jschema:"description"`, `Read` leaves `Id` and `Description` empty, because
`readId` looks for `id` among the tag's options and not in its name; a tag
`jschema:"meta,id"` does set `Id` to the string form of the struct. -/
theorem C14_id_not_harvested_from_base :
    (Read Document.zero (baseValue "http://example.com/api" "an API" [])).map Document.Id =
      some "" ∧
    (Read Document.zero (baseValue "http://example.com/api" "an API" [])).map
      Document.Description = some "" ∧
    (baseValue "http://example.com/api" "an API" []).String = "<jsonschema.Base Value>" ∧
    (Read Document.zero optionIdValue).map Document.Id = some "<main.U Value>" := by
  refine ⟨?_, ?_, ?_, ?_⟩ <;> decide

/-! ## The links accumulator -/

theorem lastTagged_cons (T dflt : String) (fv : FieldValue) (fs : List FieldValue) :
    lastTagged T dflt (fv :: fs) =
      lastTagged T (if tagName fv = T then fv.value.String else dflt) fs := by
  unfold lastTagged
  rw [List.reverse_cons, List.find?_append]
  cases h : List.find? (fun fv => decide (tagName fv = T)) fs.reverse with
  | some g => simp
  | none =>
    by_cases ht : tagName fv = T <;> simp [List.find?, ht]

/-- The `switch` of `readLinksFromSlice` assigns the attribute named by the
tag and leaves the other four alone. -/
theorem linkSwitch_eq (acc : link) (fv : FieldValue) :
    linkSwitch acc fv =
      ⟨if tagName fv = TAG_LINKS_TITLE then fv.value.String else acc.Title,
       if tagName fv = TAG_LINKS_DESCRIPTION then fv.value.String else acc.Description,
       if tagName fv = TAG_LINKS_METHOD then fv.value.String else acc.Method,
       if tagName fv = TAG_LINKS_HREF then fv.value.String else acc.Href,
       if tagName fv = TAG_LINKS_REL then fv.value.String else acc.Rel⟩ := by
  have h12 : TAG_LINKS_TITLE ≠ TAG_LINKS_DESCRIPTION := by decide
  have h13 : TAG_LINKS_TITLE ≠ TAG_LINKS_METHOD := by decide
  have h14 : TAG_LINKS_TITLE ≠ TAG_LINKS_HREF := by decide
  have h15 : TAG_LINKS_TITLE ≠ TAG_LINKS_REL := by decide
  have h23 : TAG_LINKS_DESCRIPTION ≠ TAG_LINKS_METHOD := by decide
  have h24 : TAG_LINKS_DESCRIPTION ≠ TAG_LINKS_HREF := by decide
  have h25 : TAG_LINKS_DESCRIPTION ≠ TAG_LINKS_REL := by decide
  have h34 : TAG_LINKS_METHOD ≠ TAG_LINKS_HREF := by decide
  have h35 : TAG_LINKS_METHOD ≠ TAG_LINKS_REL := by decide
  have h45 : TAG_LINKS_HREF ≠ TAG_LINKS_REL := by decide
  have ht : (parseTag (fv.field.Tag.Get TAG)).1 = tagName fv := rfl
  simp only [linkSwitch, ht]
  generalize tagName fv = t
  by_cases c1 : t = TAG_LINKS_TITLE
  · subst c1
    simp [h12, h13, h14, h15]
  · by_cases c2 : t = TAG_LINKS_DESCRIPTION
    · subst c2
      simp [h12.symm, h23, h24, h25]
    · by_cases c3 : t = TAG_LINKS_METHOD
      · subst c3
        simp [h13.symm, h23.symm, h34, h35]
      · by_cases c4 : t = TAG_LINKS_HREF
        · subst c4
          simp [h14.symm, h24.symm, h34.symm, h45]
        · by_cases c5 : t = TAG_LINKS_REL
          · subst c5
            simp [h15.symm, h25.symm, h35.symm, h45.symm]
          · simp [c1, c2, c3, c4, c5]

/-- The inner loop leaves in each attribute the last tagged value. -/
theorem linkInner_eq (acc : link) (fs : List FieldValue) :
    linkInner acc fs = harvested acc fs := by
  induction fs generalizing acc with
  | nil => rfl
  | cons fv rest ih =>
    rw [linkInner, ih, linkSwitch_eq]
    simp only [harvested, lastTagged_cons]

theorem linkInner_append (acc : link) (a b : List FieldValue) :
    linkInner acc (a ++ b) = linkInner (linkInner acc a) b := by
  induction a generalizing acc with
  | nil => rfl
  | cons fv rest ih =>
    rw [List.cons_append, linkInner, linkInner]
    exact ih _

theorem linkOuter_cons_record (acc : link) (e : GoValue) (rest : List GoValue)
    (fs : List FieldValue) (h : recordFields e = some fs) :
    linkOuter acc (e :: rest) = linkOuter (linkInner acc fs) rest := by
  unfold recordFields at h
  rw [linkOuter]
  cases he : e.Elem with
  | none => simp [he] at h
  | some v =>
    simp only [he] at h
    simp [h]

/-- Over a sequence of records the outer loop is the inner loop over all their
fields in order. -/
theorem linkOuter_records (acc : link) (elems : List GoValue)
    (h : ∀ e ∈ elems, (recordFields e).isSome = true) :
    linkOuter acc elems = some (linkInner acc (allRecordFields elems)) := by
  induction elems generalizing acc with
  | nil => rfl
  | cons e rest ih =>
    have he := h e (List.mem_cons_self _ _)
    obtain ⟨fs, hfs⟩ := Option.isSome_iff_exists.mp he
    rw [linkOuter_cons_record acc e rest fs hfs,
      ih _ (fun e' he' => h e' (List.mem_cons_of_mem _ he'))]
    simp [allRecordFields, hfs, linkInner_append]

theorem linkOuter_append (acc : link) (a b : List GoValue) :
    linkOuter acc (a ++ b) = (linkOuter acc a).bind (fun acc1 => linkOuter acc1 b) := by
  induction a generalizing acc with
  | nil => rfl
  | cons e rest ih =>
    rw [List.cons_append, linkOuter, linkOuter]
    cases e.Elem with
    | none => rfl
    | some v =>
      cases hv : v.Fields with
      | none => simp [hv]
      | some fs =>
        simp only [hv]
        exact ih _

theorem marshalsEmpty_iff (l : link) : l.marshalsEmpty = true ↔ l = link.zero := by
  obtain ⟨a, b, c, d, e⟩ := l
  simp [link.marshalsEmpty, link.zero]
  tauto

/-- C15: over a sequence of link-bearing records (each element a pointer to a
struct) `readLinksFromSlice` appends at most one `link`, whatever the number of
records; each attribute is the value of the last correspondingly tagged field
among all records in order; the link is appended iff one of its five
attributes is non-empty. -/
theorem C15_links_shared_accumulator (l : links) (elems : List GoValue)
    (h : ∀ e ∈ elems, (recordFields e).isSome = true) :
    readLinksFromSlice l elems =
      some (if harvested link.zero (allRecordFields elems) = link.zero then l
            else l ++ [harvested link.zero (allRecordFields elems)]) ∧
    (harvested link.zero (allRecordFields elems) = link.zero ↔
      lastTagged TAG_LINKS_TITLE "" (allRecordFields elems) = "" ∧
      lastTagged TAG_LINKS_DESCRIPTION "" (allRecordFields elems) = "" ∧
      lastTagged TAG_LINKS_METHOD "" (allRecordFields elems) = "" ∧
      lastTagged TAG_LINKS_HREF "" (allRecordFields elems) = "" ∧
      lastTagged TAG_LINKS_REL "" (allRecordFields elems) = "") := by
  constructor
  · unfold readLinksFromSlice
    rw [linkOuter_records _ _ h, linkInner_eq]
    by_cases hz : harvested link.zero (allRecordFields elems) = link.zero
    · have hm := (marshalsEmpty_iff _).mpr hz
      simp only [hm, hz, if_true]
      rfl
    · have hm : (harvested link.zero (allRecordFields elems)).marshalsEmpty = false := by
        cases hb : (harvested link.zero (allRecordFields elems)).marshalsEmpty with
        | false => rfl
        | true => exact absurd ((marshalsEmpty_iff _).mp hb) hz
      simp [hz, hm]
  · simp [harvested, link.zero]

/-- Instance of C15: three `BaseLink` records of which only the last sets
`Href` give exactly one link, carrying the last record's `Href`. -/
theorem C15_links_shared_accumulator_witness :
    (∀ e ∈ [baseLink "" "" "" "" "", baseLink "" "" "" "" "", baseLink "" "" "" "/last" ""],
      (recordFields e).isSome = true) ∧
    readLinksFromSlice []
        [baseLink "" "" "" "" "", baseLink "" "" "" "" "", baseLink "" "" "" "/last" ""] =
      some [⟨"", "", "", "/last", ""⟩] :=
  ⟨by decide,
   (C15_links_shared_accumulator []
      [baseLink "" "" "" "" "", baseLink "" "" "" "" "", baseLink "" "" "" "/last" ""]
      (by decide)).1.trans (by decide)⟩

theorem lastTagged_mem (T dflt : String) (fs : List FieldValue)
    (h : ∃ fv ∈ fs, tagName fv = T) :
    ∃ fv ∈ fs, tagName fv = T ∧ lastTagged T dflt fs = fv.value.String := by
  unfold lastTagged
  cases hf : List.find? (fun fv => decide (tagName fv = T)) fs.reverse with
  | none =>
    obtain ⟨fv, hfv, ht⟩ := h
    have := List.find?_eq_none.mp hf fv (List.mem_reverse.mpr hfv)
    simp [ht] at this
  | some g =>
    have h1 := List.find?_some hf
    have h2 := List.mem_of_find?_eq_some hf
    exact ⟨g, List.mem_reverse.mp h2, of_decide_eq_true h1, rfl⟩

/-- C20, as amended: each record overwrites the accumulator unconditionally.
After a further record `e` with fields `fs`, every attribute is the value of
the last correspondingly tagged field of `e`, empty or not, and keeps the
earlier value only when `e` has no such field. -/
theorem C20_links_last_write_wins (elems : List GoValue) (e : GoValue)
    (fs : List FieldValue) (acc : link)
    (h1 : linkOuter link.zero elems = some acc) (h2 : recordFields e = some fs) :
    linkOuter link.zero (elems ++ [e]) = some (harvested acc fs) ∧
    (∀ T dflt, (∃ fv ∈ fs, tagName fv = T) →
      ∃ fv ∈ fs, tagName fv = T ∧ lastTagged T dflt fs = fv.value.String) ∧
    (∀ T dflt, (∀ fv ∈ fs, tagName fv ≠ T) → lastTagged T dflt fs = dflt) := by
  refine ⟨?_, fun T dflt h => lastTagged_mem T dflt fs h, ?_⟩
  · rw [linkOuter_append, h1]
    show linkOuter acc [e] = some (harvested acc fs)
    rw [linkOuter_cons_record acc e [] fs h2, linkInner_eq]
    rfl
  · intro T dflt h
    unfold lastTagged
    have : List.find? (fun fv => decide (tagName fv = T)) fs.reverse = none := by
      rw [List.find?_eq_none]
      intro fv hfv
      simpa using h fv (List.mem_reverse.mp hfv)
    rw [this]

/-- Instance of C20: after a record with `Href = "a"`, a record with
`Href = ""` leaves the accumulator's `Href` empty. -/
theorem C20_links_last_write_wins_witness :
    linkOuter link.zero [baseLink "" "" "" "a" ""] = some ⟨"", "", "", "a", ""⟩ ∧
    recordFields (baseLink "" "" "" "" "") = some (baseLinkFields "" "" "" "" "") ∧
    linkOuter link.zero ([baseLink "" "" "" "a" ""] ++ [baseLink "" "" "" "" ""]) =
      some ⟨"", "", "", "", ""⟩ :=
  ⟨by decide, rfl,
   (C20_links_last_write_wins [baseLink "" "" "" "a" ""] (baseLink "" "" "" "" "")
      (baseLinkFields "" "" "" "" "") ⟨"", "", "", "a", ""⟩ (by decide) rfl).1.trans
      (by decide)⟩

/-- C20, as stated, fails at the records `[{Href: "a"}, {Href: ""}]`: the later
empty `Href` erases `"a"`, the accumulator ends all empty and no link is
harvested, in particular none with `Href = "a"`. -/
theorem C20_later_empty_value_erases :
    readLinksFromSlice [] [baseLink "" "" "" "a" "", baseLink "" "" "" "" ""] = some [] ∧
    readLinksFromSlice [] [baseLink "" "" "" "a" "", baseLink "" "" "" "" ""] ≠
      some [⟨"", "", "", "a", ""⟩] ∧
    readLinksFromSlice [] [baseLink "" "" "" "a" ""] = some [⟨"", "", "", "a", ""⟩] := by
  refine ⟨?_, ?_, ?_⟩ <;> decide

/-! ## The assembler `Read` -/

theorem readIdLoop_eq (vstr : String) (d : Document) (fs : List FieldValue) :
    readIdLoop vstr d fs =
      { d with Id := if fs.any (harvestTrigger TAG_ID) = true then vstr else d.Id } := by
  induction fs generalizing d with
  | nil => rfl
  | cons fv rest ih =>
    rw [readIdLoop]
    simp only [List.any_cons, harvestTrigger]
    by_cases h1 : (parseTag (fv.field.Tag.Get TAG)).1 = ""
    · simp [h1, ih]
    · by_cases h2 : tagOptions.Contains (parseTag (fv.field.Tag.Get TAG)).2 "omitempty" = true
      · simp [h1, h2, ih]
      · by_cases h3 : tagOptions.Contains (parseTag (fv.field.Tag.Get TAG)).2 TAG_ID = true
        · simp [h1, h2, h3, ih]
        · simp [h1, h2, h3, ih]

theorem readDescriptionLoop_eq (vstr : String) (d : Document) (fs : List FieldValue) :
    readDescriptionLoop vstr d fs =
      { d with Description :=
          if fs.any (harvestTrigger TAG_DESCRIPTION) = true then vstr else d.Description } := by
  induction fs generalizing d with
  | nil => rfl
  | cons fv rest ih =>
    rw [readDescriptionLoop]
    simp only [List.any_cons, harvestTrigger]
    by_cases h1 : (parseTag (fv.field.Tag.Get TAG)).1 = ""
    · simp [h1, ih]
    · by_cases h2 : tagOptions.Contains (parseTag (fv.field.Tag.Get TAG)).2 "omitempty" = true
      · simp [h1, h2, ih]
      · by_cases h3 :
          tagOptions.Contains (parseTag (fv.field.Tag.Get TAG)).2 TAG_DESCRIPTION = true
        · simp [h1, h2, h3, ih]
        · simp [h1, h2, h3, ih]

/-- `readId` only rewrites `Id`. -/
theorem readId_eq (d : Document) (v : GoValue) :
    readId d v = { d with Id := harvestAttr TAG_ID d.Id v } := by
  cases v <;> first
    | rfl
    | (simp only [readId, harvestAttr, GoValue.Kind, readIdLoop_eq]; simp)

/-- `readDescription` only rewrites `Description`. -/
theorem readDescription_eq (d : Document) (v : GoValue) :
    readDescription d v = { d with Description := harvestAttr TAG_DESCRIPTION d.Description v } := by
  cases v <;> first
    | rfl
    | (simp only [readDescription, harvestAttr, GoValue.Kind, readDescriptionLoop_eq]; simp)

theorem harvestAttr_idem (T cur : String) (v : GoValue) :
    harvestAttr T (harvestAttr T cur v) v = harvestAttr T cur v := by
  cases v <;> simp only [harvestAttr]
  split_ifs <;> rfl

theorem readLinksFromSlice_extends (l : links) (elems : List GoValue) :
    readLinksFromSlice l elems = (readLinksFromSlice [] elems).map (fun h => l ++ h) := by
  unfold readLinksFromSlice
  cases linkOuter link.zero elems with
  | none => rfl
  | some acc =>
    cases hm : acc.marshalsEmpty <;> simp [hm]

mutual
/-- The links harvest only appends: its result is the receiver followed by what
the value yields on an empty receiver, and it panics for the same values. -/
theorem readLinks_extends :
    (v : GoValue) → (l : links) → readLinks l v = (readLinks [] v).map (fun h => l ++ h)
  | .invalid, l => by simp [readLinks]
  | .basic _ _ _, l => by simp [readLinks]
  | .iface _ _, l => by simp [readLinks]
  | .array _ _ _, l => by simp [readLinks]
  | .map _ _ _, l => by simp [readLinks]
  | .chan _ _, l => by simp [readLinks]
  | .slice _ _ es, l => by
    rw [readLinks, readLinks]
    exact readLinksFromSlice_extends l es
  | .ptr _ _ t, l => by
    rw [readLinks, readLinks]
    exact readLinks_extends t l
  | .struct _ fs, l => by
    rw [readLinks, readLinks]
    exact readLinksFromStructLoop_extends fs l
/-- The same for the field loop of `readLinksFromStruct`. -/
theorem readLinksFromStructLoop_extends :
    (fs : List FieldValue) → (l : links) →
      readLinksFromStructLoop l fs = (readLinksFromStructLoop [] fs).map (fun h => l ++ h)
  | [], l => by simp [readLinksFromStructLoop]
  | .mk f fv :: rest, l => by
    have hstep : ∀ l0 : links,
        (match readLinks l0 fv with
          | none => none
          | some l1 => readLinksFromStructLoop l1 rest) =
        (match readLinks [] fv with
          | none => none
          | some l1 => readLinksFromStructLoop l1 rest).map (fun h => l0 ++ h) := by
      intro l0
      rw [readLinks_extends fv l0]
      cases hr : readLinks [] fv with
      | none => rfl
      | some h0 =>
        simp only [Option.map_some']
        rw [readLinksFromStructLoop_extends rest (l0 ++ h0),
          readLinksFromStructLoop_extends rest h0]
        cases readLinksFromStructLoop [] rest with
        | none => rfl
        | some h1 => simp [List.append_assoc]
    rw [readLinksFromStructLoop, readLinksFromStructLoop]
    by_cases hk : fv.Kind = Kind.Ptr
    · simp only [hk, if_true]
      exact hstep l
    · simp only [hk, if_false]
      by_cases hb : (parseTag (f.Tag.Get TAG)).1 = TAG_BASE
      · simp only [hb, if_true]
        exact hstep l
      · by_cases hl : (parseTag (f.Tag.Get TAG)).1 = TAG_LINKS
        · simp only [hb, hl, if_true, if_false]
          exact hstep l
        · simp only [hb, hl, if_false]
          exact readLinksFromStructLoop_extends rest l
end

theorem setDefaultSchema_eq (d : Document) :
    setDefaultSchema d =
      ⟨if d.Schema = "" then DEFAULT_SCHEMA else d.Schema, d.Id, d.Description,
        some (d.Links.getD []), d.prop⟩ := by
  obtain ⟨s, i, de, l, p⟩ := d
  unfold setDefaultSchema
  by_cases hs : s = "" <;> cases l <;> simp [hs]

/-- What `Read` computes: it panics when `v.Type()` or the links harvest does,
and otherwise returns the document assembled from the defaults, the inferred
root property, the two attribute harvests and the appended links. -/
theorem Read_eq (d : Document) (v : GoValue) :
    Read d v =
      match v.Type, readLinks [] v with
      | some t, some h =>
        some ⟨if d.Schema = "" then DEFAULT_SCHEMA else d.Schema,
          harvestAttr TAG_ID d.Id v, harvestAttr TAG_DESCRIPTION d.Description v,
          some (d.Links.getD [] ++ h), read d.prop t ""⟩
      | _, _ => none := by
  unfold Read
  simp only [setDefaultSchema_eq, readId_eq, readDescription_eq]
  cases ht : v.Type with
  | none => rfl
  | some t =>
    simp only
    rw [readLinks_extends v (d.Links.getD [])]
    cases readLinks [] v with
    | none => rfl
    | some h => rfl

/-- The `readFromStruct` loop only appends to `Required`, and its map does not
depend on the `Required` it starts from. -/
theorem readFromStructLoop_req_split (fs : List StructField) (m : List (String × property))
    (req : List String) :
    readFromStructLoop m req fs =
      ((readFromStructLoop m [] fs).1, req ++ (readFromStructLoop m [] fs).2) := by
  induction fs generalizing m req with
  | nil => simp [readFromStructLoop]
  | cons f rest ih =>
    rw [readFromStructLoop_cons, readFromStructLoop_cons]
    by_cases hinc : included f = true
    · simp only [hinc, if_true]
      rw [ih _ (if (jsonOpts f).Contains "omitempty" = true then req
            else if visibleName f ≠ "-" then req ++ [visibleName f] else req),
        ih _ (if (jsonOpts f).Contains "omitempty" = true then []
            else if visibleName f ≠ "-" then [] ++ [visibleName f] else [])]
      by_cases ho : (jsonOpts f).Contains "omitempty" = true
      · simp [ho]
      · by_cases hv : visibleName f = "-" <;> simp [ho, hv]
    · simp only [hinc]
      exact ih m req

/-- Reading a struct type twice into the same property: everything but
`Required` is as after one reading, and `Required` receives the same names a
second time. -/
theorem read_struct_twice (p : property) (fields : List StructField) (o1 o2 : tagOptions) :
    (read (read p (.struct fields) o1) (.struct fields) o2).Type =
      (read p (.struct fields) o1).Type ∧
    (read (read p (.struct fields) o1) (.struct fields) o2).Items =
      (read p (.struct fields) o1).Items ∧
    (read (read p (.struct fields) o1) (.struct fields) o2).Properties =
      (read p (.struct fields) o1).Properties ∧
    (read (read p (.struct fields) o1) (.struct fields) o2).AdditionalProperties =
      (read p (.struct fields) o1).AdditionalProperties ∧
    (read p (.struct fields) o1).Required =
      p.Required ++ (readFromStructLoop [] [] fields).2 ∧
    (read (read p (.struct fields) o1) (.struct fields) o2).Required =
      p.Required ++ (readFromStructLoop [] [] fields).2 ++ (readFromStructLoop [] [] fields).2 := by
  cases p with
  | mk ty it ps r a =>
    simp only [read_struct, readFromStruct, property.setType, property.setProperties,
      property.setAdditionalProperties, property.setRequired, property.Required,
      property.Type, property.Items, property.Properties, property.AdditionalProperties]
    rw [readFromStructLoop_req_split fields [] r,
      readFromStructLoop_req_split fields [] (r ++ (readFromStructLoop [] [] fields).2)]
    simp

/-- C16: `setDefaultSchema` makes `Schema` non-empty and `Links` non-nil, and
whenever `Read` returns, the returned document has a non-empty `Schema`, equal
to the default URI when it was empty before and unchanged otherwise, and
non-nil `Links` that extend the entries present before the call. -/
theorem C16_assembler_defaults (d : Document) (v : GoValue) :
    (setDefaultSchema d).Schema ≠ "" ∧ (setDefaultSchema d).Links ≠ none ∧
    ∀ d1, Read d v = some d1 →
      d1.Schema ≠ "" ∧ d1.Links ≠ none ∧
      (d.Schema = "" → d1.Schema = DEFAULT_SCHEMA) ∧
      (d.Schema ≠ "" → d1.Schema = d.Schema) ∧
      (∀ l, d.Links = some l → ∃ ext, d1.Links = some (l ++ ext)) := by
  have hdef : DEFAULT_SCHEMA ≠ "" := by decide
  have hS : (if d.Schema = "" then DEFAULT_SCHEMA else d.Schema) ≠ "" := by
    by_cases hs : d.Schema = "" <;> simp [hs, hdef]
  refine ⟨?_, ?_, ?_⟩
  · rw [setDefaultSchema_eq]
    exact hS
  · rw [setDefaultSchema_eq]
    simp
  · intro d1 h
    rw [Read_eq] at h
    cases ht : v.Type with
    | none => simp [ht] at h
    | some t =>
      cases hl : readLinks [] v with
      | none => simp [ht, hl] at h
      | some hv =>
        simp only [ht, hl, Option.some.injEq] at h
        subst h
        refine ⟨hS, by simp, fun hs => by simp [hs], fun hs => by simp [hs], ?_⟩
        intro l hl0
        exact ⟨hv, by simp [hl0]⟩

/-- Instance of C16: `Read` of the zero document at a struct with one link
returns a document with the default `Schema` and the harvested link. -/
theorem C16_assembler_defaults_witness :
    Read Document.zero linkedValue =
      some ⟨DEFAULT_SCHEMA, "", "", some [⟨"", "", "", "/a", ""⟩],
        property.mk "object" none (some [("A", property.mk "integer" none none [] false)])
          ["A"] false⟩ ∧
    (Document.zero.Schema = "" →
      (⟨DEFAULT_SCHEMA, "", "", some [⟨"", "", "", "/a", ""⟩],
        property.mk "object" none (some [("A", property.mk "integer" none none [] false)])
          ["A"] false⟩ : Document).Schema = DEFAULT_SCHEMA) :=
  ⟨rfl, ((C16_assembler_defaults Document.zero linkedValue).2.2 _ rfl).2.2.1⟩

/-- C13, as amended: when `Read` of a struct value returns, a second `Read` of
the same value into the returned document returns too, with the same `Schema`,
`Id`, `Description` and root `Type`, `Items`, `Properties`,
`AdditionalProperties`; `Links` receives the links harvested from the value a
second time, and `Required` the required names a second time. -/
theorem C13_read_twice (d d1 : Document) (tstr : String) (fs : List FieldValue)
    (h : Read d (.struct tstr fs) = some d1) :
    ∃ (d2 : Document) (hv : links) (R : List String),
      Read d1 (.struct tstr fs) = some d2 ∧
      readLinks [] (.struct tstr fs) = some hv ∧
      d2.Schema = d1.Schema ∧ d2.Id = d1.Id ∧ d2.Description = d1.Description ∧
      d2.prop.Type = d1.prop.Type ∧ d2.prop.Items = d1.prop.Items ∧
      d2.prop.Properties = d1.prop.Properties ∧
      d2.prop.AdditionalProperties = d1.prop.AdditionalProperties ∧
      d1.Links = some (d.Links.getD [] ++ hv) ∧
      d2.Links = some (d.Links.getD [] ++ hv ++ hv) ∧
      d1.prop.Required = d.prop.Required ++ R ∧
      d2.prop.Required = d.prop.Required ++ R ++ R := by
  have hdef : DEFAULT_SCHEMA ≠ "" := by decide
  rw [Read_eq] at h
  have ht : (GoValue.struct tstr fs).Type = some (.struct (fs.map FieldValue.field)) := rfl
  cases hl : readLinks [] (GoValue.struct tstr fs) with
  | none => simp [ht, hl] at h
  | some hv =>
    simp only [ht, hl, Option.some.injEq] at h
    subst h
    obtain ⟨h1, h2, h3, h4, h5, h6⟩ :=
      read_struct_twice d.prop (fs.map FieldValue.field) "" ""
    refine ⟨⟨if (if d.Schema = "" then DEFAULT_SCHEMA else d.Schema) = "" then DEFAULT_SCHEMA
          else (if d.Schema = "" then DEFAULT_SCHEMA else d.Schema),
        harvestAttr TAG_ID (harvestAttr TAG_ID d.Id (.struct tstr fs)) (.struct tstr fs),
        harvestAttr TAG_DESCRIPTION
          (harvestAttr TAG_DESCRIPTION d.Description (.struct tstr fs)) (.struct tstr fs),
        some (d.Links.getD [] ++ hv ++ hv),
        read (read d.prop (.struct (fs.map FieldValue.field)) "")
          (.struct (fs.map FieldValue.field)) ""⟩,
      hv, (readFromStructLoop [] [] (fs.map FieldValue.field)).2, ?_, rfl, ?_, ?_, ?_,
      h1, h2, h3, h4, rfl, rfl, h5, h6⟩
    · rw [Read_eq]
      simp only [ht, hl, Option.getD_some]
    · by_cases hs : d.Schema = "" <;> simp [hs, hdef]
    · exact harvestAttr_idem TAG_ID d.Id (.struct tstr fs)
    · exact harvestAttr_idem TAG_DESCRIPTION d.Description (.struct tstr fs)

/-- Instance of C13 at a struct with one required field and one link. -/
theorem C13_read_twice_witness :
    Read Document.zero linkedValue =
      some ⟨DEFAULT_SCHEMA, "", "", some [⟨"", "", "", "/a", ""⟩],
        property.mk "object" none (some [("A", property.mk "integer" none none [] false)])
          ["A"] false⟩ ∧
    ∃ (d2 : Document) (hv : links) (R : List String),
      Read ⟨DEFAULT_SCHEMA, "", "", some [⟨"", "", "", "/a", ""⟩],
        property.mk "object" none (some [("A", property.mk "integer" none none [] false)])
          ["A"] false⟩ linkedValue = some d2 ∧
      readLinks [] linkedValue = some hv ∧
      d2.Schema = DEFAULT_SCHEMA ∧ d2.Id = "" ∧ d2.Description = "" ∧
      d2.prop.Type = "object" ∧ d2.prop.Items = none ∧
      d2.prop.Properties = some [("A", property.mk "integer" none none [] false)] ∧
      d2.prop.AdditionalProperties = false ∧
      some [(⟨"", "", "", "/a", ""⟩ : link)] = some (Document.zero.Links.getD [] ++ hv) ∧
      d2.Links = some (Document.zero.Links.getD [] ++ hv ++ hv) ∧
      ["A"] = Document.zero.prop.Required ++ R ∧
      d2.prop.Required = Document.zero.prop.Required ++ R ++ R :=
  ⟨rfl, C13_read_twice Document.zero _ "main.V" _ rfl⟩

/-- C13, as stated, fails at a struct with one required field `A` and one
link: after two calls of `Read` the document holds the link twice and
`Required = ["A", "A"]`, after one call once each. -/
theorem C13_second_read_duplicates :
    (Read Document.zero linkedValue).map (fun d1 => (d1.Links, d1.prop.Required)) =
      some (some [⟨"", "", "", "/a", ""⟩], ["A"]) ∧
    ((Read Document.zero linkedValue).bind (fun d1 => Read d1 linkedValue)).map
        (fun d2 => (d2.Links, d2.prop.Required)) =
      some (some [⟨"", "", "", "/a", ""⟩, ⟨"", "", "", "/a", ""⟩], ["A", "A"]) := by
  constructor <;> decide

/-- `Read` panics exactly when `v.Type()` does (the zero `Value`) or the links
harvest does: schema inference and the id / description harvests always
complete. -/
theorem Read_eq_none_iff (d : Document) (v : GoValue) :
    Read d v = none ↔ v.Type = none ∨ readLinks [] v = none := by
  rw [Read_eq]
  cases v.Type <;> cases readLinks [] v <;> simp

end jsonschema
